import Mathlib

/-!
Shallow embedding of babeltrace's trace-IR field-class subsystem
(src/src/lib/trace-ir/field-class.c) in Lean 4.

Modelling conventions:
* A `BT_ASSERT_PRE`/`BT_ASSERT_PRE_DEV` precondition failure is modelled as an
  `Except.error` carrying the status name the specification assigns to that
  precondition (the C macros abort in developer mode; dev-mode semantics is
  modelled, matching the spec's error taxonomy).
* `u64`/`i64` bounds and values are modelled as `Int`.  The C code performs no
  arithmetic on range bounds or enumeration values, only `<=`/`>=` comparisons,
  and both the u64 order and the i64 order embed order-preservingly in `Int`,
  so one integer type faithfully covers the unsigned and the signed family.
* GLib containers: `GPtrArray`/`GArray` become `List`, appended at the end;
  the `name_to_index` `GHashTable` becomes an association list whose lookup
  returns the most recently inserted binding for a key (keys are never
  inserted twice because duplicate names are rejected first).
* Allocation failure (`BT_FUNC_STATUS_MEMORY_ERROR` paths) is not modelled:
  allocation always succeeds in the model.
-/

/-- Display bases of `bt_field_class_integer_preferred_display_base`. -/
inductive DisplayBase : Type where
  | binary : DisplayBase
  | octal : DisplayBase
  | decimal : DisplayBase
  | hexadecimal : DisplayBase
deriving DecidableEq, Repr

/-- Status names for precondition failures, named following the
specification's error taxonomy (section 7 of the spec). -/
inductive Err : Type where
  | invalidState : Err
  | invalidArgument : Err
  | duplicateName : Err
  | duplicateLabel : Err
  | overlappingRanges : Err
  | emptyRangeSet : Err
  | invalidKind : Err
deriving DecidableEq, Repr

/-- One inclusive integer range `[lower, upper]` (struct bt_integer_range).
The C union of `u64`/`i64` bounds is modelled as `Int` (order-embedding;
no arithmetic is ever performed on bounds). -/
structure IntRange : Type where
  lower : Int
  upper : Int
deriving DecidableEq, Repr

/-- A range set (struct bt_integer_range_set): ordered list of inclusive
ranges plus a frozen flag. -/
structure RangeSet : Type where
  ranges : List IntRange
  rsFrozen : Bool
deriving DecidableEq, Repr

/-- One enumeration mapping (struct bt_field_class_enumeration_mapping):
a label and its range set. -/
structure EnumMapping : Type where
  label : String
  rangeSet : RangeSet
deriving DecidableEq, Repr

mutual

/-- A field class (struct bt_field_class): common header
`frozen`/`part_of_trace_class` plus the kind-specific payload. -/
inductive FieldClass : Type where
  | mk : Bool → Bool → FcSpec → FieldClass

/-- Kind-specific payload of a field class.  The constructors follow the
closed set of `BT_FIELD_CLASS_TYPE_*` values; integer-family constructors
carry `range` (bit width) and preferred display base, containers carry the
ordered entry list plus the name-to-index table. -/
inductive FcSpec : Type where
  | uInt : Nat → DisplayBase → FcSpec
  | sInt : Nat → DisplayBase → FcSpec
  | uEnum : Nat → DisplayBase → List EnumMapping → FcSpec
  | sEnum : Nat → DisplayBase → List EnumMapping → FcSpec
  | real : Bool → FcSpec
  | str : FcSpec
  | struct : List NamedFc → List (String × Nat) → FcSpec
  | varNoSel : List NamedFc → List (String × Nat) → FcSpec
  | varUSel : FieldClass → List VarOption → List (String × Nat) → FcSpec
  | varSSel : FieldClass → List VarOption → List (String × Nat) → FcSpec
  | staticArr : FieldClass → Nat → FcSpec
  | dynArr : FieldClass → Option FieldClass → FcSpec

/-- A named field class entry (struct bt_named_field_class):
name, frozen flag, child field class. -/
inductive NamedFc : Type where
  | mk : String → Bool → FieldClass → NamedFc

/-- A selector-variant option
(struct bt_field_class_variant_with_selector_option): a named field class
entry plus its range set. -/
inductive VarOption : Type where
  | mk : String → Bool → FieldClass → RangeSet → VarOption

end

/-- Frozen flag of a field class. -/
def FieldClass.frozen : FieldClass → Bool
  | .mk fz _ _ => fz

/-- Part-of-trace-class flag of a field class. -/
def FieldClass.part : FieldClass → Bool
  | .mk _ p _ => p

/-- Kind-specific payload of a field class. -/
def FieldClass.spec : FieldClass → FcSpec
  | .mk _ _ s => s

/-- Name of a named field class entry. -/
def NamedFc.name : NamedFc → String
  | .mk n _ _ => n

/-- Frozen flag of a named field class entry. -/
def NamedFc.frozen : NamedFc → Bool
  | .mk _ fz _ => fz

/-- Child field class of a named field class entry. -/
def NamedFc.fc : NamedFc → FieldClass
  | .mk _ _ f => f

/-- Name of a selector-variant option. -/
def VarOption.name : VarOption → String
  | .mk n _ _ _ => n

/-- Child field class of a selector-variant option. -/
def VarOption.fc : VarOption → FieldClass
  | .mk _ _ f _ => f

/-- Range set of a selector-variant option. -/
def VarOption.rangeSet : VarOption → RangeSet
  | .mk _ _ _ rs => rs

/-- Integer-family test (`BT_ASSERT_PRE_FC_IS_INT` condition): unsigned or
signed integer, or unsigned or signed enumeration. -/
def isIntFamily : FcSpec → Bool
  | .uInt _ _ => true
  | .sInt _ _ => true
  | .uEnum _ _ _ => true
  | .sEnum _ _ _ => true
  | _ => false

/-- Unsigned-integer-family test (`BT_ASSERT_PRE_FC_IS_UNSIGNED_INT`
condition): unsigned integer or unsigned enumeration. -/
def isUnsignedIntFamily : FcSpec → Bool
  | .uInt _ _ => true
  | .uEnum _ _ _ => true
  | _ => false

/-- Association-list lookup for the `name_to_index` hash table: returns the
most recently inserted binding for `name`. -/
def lookupName : List (String × Nat) → String → Option Nat
  | [], _ => none
  | (n, i) :: rest, name => if n = name then some i else lookupName rest name

mutual

/-- Embedding of `_bt_field_class_freeze` (field-class.c:1613-1645): set the
frozen flag; for the four container kinds, freeze every entry via
`bt_named_field_class_freeze`.  Array elements and selector/length field
classes are not visited here (they were frozen when added to their owner). -/
def bt_field_class_freeze : FieldClass → FieldClass
  | .mk _ part spec => .mk true part (freezeSpecChildren spec)

/-- Container dispatch of `_bt_field_class_freeze`'s switch statement. -/
def freezeSpecChildren : FcSpec → FcSpec
  | .struct nfs idx => .struct (freezeNamedList nfs) idx
  | .varNoSel nfs idx => .varNoSel (freezeNamedList nfs) idx
  | .varUSel sel opts idx => .varUSel sel (freezeOptList opts) idx
  | .varSSel sel opts idx => .varSSel sel (freezeOptList opts) idx
  | other => other

/-- Embedding of `_bt_named_field_class_freeze` (field-class.c:1647-1653):
set the entry's frozen flag and freeze its child field class. -/
def bt_named_field_class_freeze : NamedFc → NamedFc
  | .mk n _ fc => .mk n true (bt_field_class_freeze fc)

/-- Loop of `_bt_field_class_freeze` over a container's named entries. -/
def freezeNamedList : List NamedFc → List NamedFc
  | [] => []
  | n :: ns => bt_named_field_class_freeze n :: freezeNamedList ns

/-- The same loop for selector-variant options (an option's common part is a
named field class; its range set is not touched by freeze). -/
def freezeOptList : List VarOption → List VarOption
  | [] => []
  | .mk n _ fc rs :: os => .mk n true (bt_field_class_freeze fc) rs :: freezeOptList os

end

mutual

/-- Embedding of `bt_field_class_make_part_of_trace_class`
(field-class.c:1655-1695): fail with `InvalidState` if the flag is already
set (`BT_ASSERT_PRE(!fc->part_of_trace_class)`), otherwise set it and recurse
into structure/variant member field classes and array element field classes.
Selector and length field classes are not visited. -/
def bt_field_class_make_part_of_trace_class : FieldClass → Except Err FieldClass
  | .mk fz part spec =>
    if part then .error .invalidState
    else
      match markSpec spec with
      | .error e => .error e
      | .ok spec' => .ok (.mk fz true spec')

/-- Recursion of `bt_field_class_make_part_of_trace_class`'s switch
statement into the kind-specific children. -/
def markSpec : FcSpec → Except Err FcSpec
  | .struct nfs idx =>
    match markNamedList nfs with
    | .error e => .error e
    | .ok nfs' => .ok (.struct nfs' idx)
  | .varNoSel nfs idx =>
    match markNamedList nfs with
    | .error e => .error e
    | .ok nfs' => .ok (.varNoSel nfs' idx)
  | .varUSel sel opts idx =>
    match markOptList opts with
    | .error e => .error e
    | .ok opts' => .ok (.varUSel sel opts' idx)
  | .varSSel sel opts idx =>
    match markOptList opts with
    | .error e => .error e
    | .ok opts' => .ok (.varSSel sel opts' idx)
  | .staticArr el len =>
    match bt_field_class_make_part_of_trace_class el with
    | .error e => .error e
    | .ok el' => .ok (.staticArr el' len)
  | .dynArr el lfc =>
    match bt_field_class_make_part_of_trace_class el with
    | .error e => .error e
    | .ok el' => .ok (.dynArr el' lfc)
  | other => .ok other

/-- Loop of `bt_field_class_make_part_of_trace_class` over a container's
named entries (it recurses into each entry's child field class). -/
def markNamedList : List NamedFc → Except Err (List NamedFc)
  | [] => .ok []
  | .mk n f fc :: rest =>
    match bt_field_class_make_part_of_trace_class fc with
    | .error e => .error e
    | .ok fc' =>
      match markNamedList rest with
      | .error e => .error e
      | .ok rest' => .ok (.mk n f fc' :: rest')

/-- The same loop for selector-variant options. -/
def markOptList : List VarOption → Except Err (List VarOption)
  | [] => .ok []
  | .mk n f fc rs :: rest =>
    match bt_field_class_make_part_of_trace_class fc with
    | .error e => .error e
    | .ok fc' =>
      match markOptList rest with
      | .error e => .error e
      | .ok rest' => .ok (.mk n f fc' rs :: rest')

end

mutual

/-- Specification-side observer: every node on the recursion skeleton of
`bt_field_class_make_part_of_trace_class` (the node itself, structure/variant
member field classes, array element field classes — not selectors, not length
field classes) has its part-of-trace-class flag set. -/
def subtreeMarked : FieldClass → Bool
  | .mk _ part spec => part && subtreeMarkedSpec spec

/-- Kind dispatch for `subtreeMarked`. -/
def subtreeMarkedSpec : FcSpec → Bool
  | .struct nfs _ => subtreeMarkedNamedList nfs
  | .varNoSel nfs _ => subtreeMarkedNamedList nfs
  | .varUSel _ opts _ => subtreeMarkedOptList opts
  | .varSSel _ opts _ => subtreeMarkedOptList opts
  | .staticArr el _ => subtreeMarked el
  | .dynArr el _ => subtreeMarked el
  | _ => true

/-- List helper for `subtreeMarked` over named entries. -/
def subtreeMarkedNamedList : List NamedFc → Bool
  | [] => true
  | .mk _ _ fc :: ns => subtreeMarked fc && subtreeMarkedNamedList ns

/-- List helper for `subtreeMarked` over selector-variant options. -/
def subtreeMarkedOptList : List VarOption → Bool
  | [] => true
  | .mk _ _ fc _ :: os => subtreeMarked fc && subtreeMarkedOptList os

end

mutual

/-- Specification-side observer: erase every part-of-trace-class flag in a
field class, leaving all other data (including every frozen flag) intact.
`stripPart fc' = stripPart fc` states that an operation changed nothing but
part-of-trace-class flags. -/
def stripPart : FieldClass → FieldClass
  | .mk fz _ spec => .mk fz false (stripPartSpec spec)

/-- Kind dispatch for `stripPart`. -/
def stripPartSpec : FcSpec → FcSpec
  | .struct nfs idx => .struct (stripPartNamedList nfs) idx
  | .varNoSel nfs idx => .varNoSel (stripPartNamedList nfs) idx
  | .varUSel sel opts idx => .varUSel (stripPart sel) (stripPartOptList opts) idx
  | .varSSel sel opts idx => .varSSel (stripPart sel) (stripPartOptList opts) idx
  | .staticArr el len => .staticArr (stripPart el) len
  | .dynArr el lfc => .dynArr (stripPart el) (stripPartOpt lfc)
  | other => other

/-- Option helper for `stripPart` (dynamic-array length field class). -/
def stripPartOpt : Option FieldClass → Option FieldClass
  | none => none
  | some fc => some (stripPart fc)

/-- List helper for `stripPart` over named entries. -/
def stripPartNamedList : List NamedFc → List NamedFc
  | [] => []
  | .mk n f fc :: ns => .mk n f (stripPart fc) :: stripPartNamedList ns

/-- List helper for `stripPart` over selector-variant options. -/
def stripPartOptList : List VarOption → List VarOption
  | [] => []
  | .mk n f fc rs :: os => .mk n f (stripPart fc) rs :: stripPartOptList os

end

/-- Embedding of `create_integer_field_class` /
`bt_field_class_unsigned_integer_create` (field-class.c:85-117) via
`init_integer_field_class` (field-class.c:67-75): fresh unsigned integer
field class with bit width 64 and decimal display base; `g_new0` zeroes the
frozen and part-of-trace-class flags. -/
def bt_field_class_unsigned_integer_create : FieldClass :=
  .mk false false (.uInt 64 .decimal)

/-- Embedding of `bt_field_class_signed_integer_create`
(field-class.c:119-124). -/
def bt_field_class_signed_integer_create : FieldClass :=
  .mk false false (.sInt 64 .decimal)

/-- Embedding of `create_enumeration_field_class` /
`bt_field_class_unsigned_enumeration_create` (field-class.c:232-278):
initialized like an integer field class (width 64, decimal base) with an
empty mapping table. -/
def bt_field_class_unsigned_enumeration_create : FieldClass :=
  .mk false false (.uEnum 64 .decimal [])

/-- Embedding of `bt_field_class_signed_enumeration_create`
(field-class.c:280-285). -/
def bt_field_class_signed_enumeration_create : FieldClass :=
  .mk false false (.sEnum 64 .decimal [])

/-- Embedding of `bt_field_class_structure_create` (field-class.c:710-741):
fresh structure with empty entry list and empty name-to-index table. -/
def bt_field_class_structure_create : FieldClass :=
  .mk false false (.struct [] [])

/-- Update the bit width of an integer-family payload (assignment
`int_fc->range = size`). -/
def setSpecRange : FcSpec → Nat → FcSpec
  | .uInt _ b, size => .uInt size b
  | .sInt _ b, size => .sInt size b
  | .uEnum _ b m, size => .uEnum size b m
  | .sEnum _ b m, size => .sEnum size b m
  | other, _ => other

/-- Read the bit width of an integer-family field class
(`bt_field_class_integer_get_field_value_range`, field-class.c:126-134). -/
def bt_field_class_integer_get_field_value_range : FieldClass → Option Nat
  | .mk _ _ (.uInt r _) => some r
  | .mk _ _ (.sInt r _) => some r
  | .mk _ _ (.uEnum r _ _) => some r
  | .mk _ _ (.sEnum r _ _) => some r
  | _ => none

/-- Embedding of `bt_field_class_integer_set_field_value_range`
(field-class.c:145-165).  Check order follows the source:
`BT_ASSERT_PRE_FC_IS_INT`, then `BT_ASSERT_PRE_DEV_FC_HOT` (frozen check),
then `BT_ASSERT_PRE(size <= 64)`.  There is no lower bound check on `size`.
The enumeration-compatibility predicate
`size_is_valid_for_enumeration_field_class` always returns true in the
source (field-class.c:136-143, a TODO stub). -/
def bt_field_class_integer_set_field_value_range
    (fc : FieldClass) (size : Nat) : Except Err FieldClass :=
  match fc with
  | .mk fz part spec =>
    if !isIntFamily spec then .error .invalidKind
    else if fz then .error .invalidState
    else if 64 < size then .error .invalidArgument
    else .ok (.mk fz part (setSpecRange spec size))

/-- Update the display base of an integer-family payload (assignment
`int_fc->base = base`). -/
def setSpecBase : FcSpec → DisplayBase → FcSpec
  | .uInt r _, b => .uInt r b
  | .sInt r _, b => .sInt r b
  | .uEnum r _ m, b => .uEnum r b m
  | .sEnum r _ m, b => .sEnum r b m
  | other, _ => other

/-- Embedding of `bt_field_class_integer_set_preferred_display_base`
(field-class.c:177-188): `BT_ASSERT_PRE_FC_IS_INT` then
`BT_ASSERT_PRE_DEV_FC_HOT` (frozen check), then the assignment. -/
def bt_field_class_integer_set_preferred_display_base
    (fc : FieldClass) (base : DisplayBase) : Except Err FieldClass :=
  match fc with
  | .mk fz part spec =>
    if !isIntFamily spec then .error .invalidKind
    else if fz then .error .invalidState
    else .ok (.mk fz part (setSpecBase spec base))

/-- Embedding of `enumeration_field_class_has_mapping_with_label`
(field-class.c:479-502): linear scan comparing labels with `strcmp`. -/
def enumeration_field_class_has_mapping_with_label
    : List EnumMapping → String → Bool
  | [], _ => false
  | m :: rest, label =>
    if m.label = label then true
    else enumeration_field_class_has_mapping_with_label rest label

/-- Embedding of `add_mapping_to_enumeration_field_class`
(field-class.c:504-536): fail if a mapping with the same label exists,
otherwise append `(label, range_set)` at the end of the mapping table.
The source performs no frozen check and no range-overlap check here. -/
def add_mapping_to_enumeration_field_class
    (fc : FieldClass) (label : String) (rangeSet : RangeSet)
    : Except Err FieldClass :=
  match fc with
  | .mk fz part (.uEnum r b maps) =>
    if enumeration_field_class_has_mapping_with_label maps label then
      .error .duplicateLabel
    else .ok (.mk fz part (.uEnum r b (maps ++ [⟨label, rangeSet⟩])))
  | .mk fz part (.sEnum r b maps) =>
    if enumeration_field_class_has_mapping_with_label maps label then
      .error .duplicateLabel
    else .ok (.mk fz part (.sEnum r b (maps ++ [⟨label, rangeSet⟩])))
  | _ => .error .invalidKind

/-- Embedding of `bt_field_class_unsigned_enumeration_add_mapping`
(field-class.c:538-548): `BT_ASSERT_PRE_FC_HAS_ID(unsigned enumeration)`
then the shared helper. -/
def bt_field_class_unsigned_enumeration_add_mapping
    (fc : FieldClass) (label : String) (rangeSet : RangeSet)
    : Except Err FieldClass :=
  match fc with
  | .mk fz part (.uEnum r b maps) =>
    add_mapping_to_enumeration_field_class (.mk fz part (.uEnum r b maps))
      label rangeSet
  | _ => .error .invalidKind

/-- Test whether `value >= range->lower && value <= range->upper` (inclusive
bounds), as in the inner loops of the label queries
(field-class.c:425-426, 465-466). -/
def rangeContains (r : IntRange) (value : Int) : Bool :=
  r.lower ≤ value && value ≤ r.upper

/-- Inner loop of the label queries: scan the mapping's ranges, stop at the
first containing range. -/
def rangeSetContainsValue : List IntRange → Int → Bool
  | [], _ => false
  | r :: rest, value =>
    if rangeContains r value then true else rangeSetContainsValue rest value

/-- Outer loop of
`bt_field_class_unsigned_enumeration_get_mapping_labels_for_value`
(field-class.c:399-437) and of its signed twin (field-class.c:439-477):
scan every mapping in order, collect the label of every mapping one of whose
ranges contains `value`. -/
def collectLabelsForValue : List EnumMapping → Int → List String
  | [], _ => []
  | m :: rest, value =>
    if rangeSetContainsValue m.rangeSet.ranges value then
      m.label :: collectLabelsForValue rest value
    else collectLabelsForValue rest value

/-- Embedding of
`bt_field_class_unsigned_enumeration_get_mapping_labels_for_value`
(field-class.c:399-437): requires an unsigned enumeration, always returns
`BT_FUNC_STATUS_OK` with the collected label sequence (possibly empty). -/
def bt_field_class_unsigned_enumeration_get_mapping_labels_for_value
    (fc : FieldClass) (value : Int) : Except Err (List String) :=
  match fc with
  | .mk _ _ (.uEnum _ _ maps) => .ok (collectLabelsForValue maps value)
  | _ => .error .invalidKind

/-- Embedding of
`bt_field_class_signed_enumeration_get_mapping_labels_for_value`
(field-class.c:439-477). -/
def bt_field_class_signed_enumeration_get_mapping_labels_for_value
    (fc : FieldClass) (value : Int) : Except Err (List String) :=
  match fc with
  | .mk _ _ (.sEnum _ _ maps) => .ok (collectLabelsForValue maps value)
  | _ => .error .invalidKind

/-- Embedding of `create_named_field_class` / `init_named_field_class`
(field-class.c:743-793): store the name, take a reference to the child and
freeze the entry via `bt_named_field_class_freeze` (which freezes the child
field class). -/
def create_named_field_class (name : String) (fc : FieldClass) : NamedFc :=
  bt_named_field_class_freeze (.mk name false fc)

/-- Embedding of `append_named_field_class_to_container_field_class`
(field-class.c:829-846), on the container's state
`(frozen flag, named_fcs, name_to_index)`.  Check order follows the source:
`BT_ASSERT_PRE_DEV_FC_HOT` (frozen check) first, then the duplicate-name
check against `name_to_index`; on success the entry goes at the end of
`named_fcs` and `name -> named_fcs->len - 1` is inserted in the table. -/
def append_named_field_class_to_container_field_class
    (containerFrozen : Bool) (nfs : List NamedFc) (idx : List (String × Nat))
    (named : NamedFc) : Except Err (List NamedFc × List (String × Nat)) :=
  if containerFrozen then .error .invalidState
  else if (lookupName idx named.name).isSome then .error .duplicateName
  else .ok (nfs ++ [named], (named.name, nfs.length) :: idx)

/-- Embedding of `bt_field_class_structure_append_member`
(field-class.c:848-875): requires a structure, builds the named entry (which
freezes the member field class), then delegates to the container append. -/
def bt_field_class_structure_append_member
    (fc : FieldClass) (name : String) (memberFc : FieldClass)
    : Except Err FieldClass :=
  match fc with
  | .mk fz part (.struct nfs idx) =>
    match append_named_field_class_to_container_field_class fz nfs idx
        (create_named_field_class name memberFc) with
    | .error e => .error e
    | .ok (nfs', idx') => .ok (.mk fz part (.struct nfs' idx'))
  | _ => .error .invalidKind

/-- Embedding of
`borrow_named_field_class_from_container_field_class_by_name`
(field-class.c:923-944): look the name up in `name_to_index`; absent names
yield "not found" (`none`), found names index into `named_fcs` (the C code
indexes without a bounds check; the model uses a checked lookup, and the
container invariant proved below shows the index is always in bounds). -/
def borrow_named_field_class_from_container_field_class_by_name
    (nfs : List NamedFc) (idx : List (String × Nat)) (name : String)
    : Option NamedFc :=
  match lookupName idx name with
  | none => none
  | some i => nfs[i]?

/-- Embedding of `bt_field_class_variant_without_selector_append_option`
(field-class.c:1096-1128): same shape as the structure append, on a
no-selector variant. -/
def bt_field_class_variant_without_selector_append_option
    (fc : FieldClass) (name : String) (optionFc : FieldClass)
    : Except Err FieldClass :=
  match fc with
  | .mk fz part (.varNoSel nfs idx) =>
    match append_named_field_class_to_container_field_class fz nfs idx
        (create_named_field_class name optionFc) with
    | .error e => .error e
    | .ok (nfs', idx') => .ok (.mk fz part (.varNoSel nfs' idx'))
  | _ => .error .invalidKind

/-- Embedding of `bt_field_class_variant_create` (field-class.c:1021-1094):
with a selector, require an integer-family selector
(`BT_ASSERT_PRE_FC_IS_INT`), pick the variant kind from the selector's
signedness (unsigned integer or unsigned enumeration give the
unsigned-selector kind, everything else the signed-selector kind), take a
reference to the selector and freeze it immediately
(`bt_field_class_freeze(selector_fc)`, field-class.c:1065); without a
selector, build a plain no-selector variant.  Both start with no options. -/
def bt_field_class_variant_create (selectorFc : Option FieldClass)
    : Except Err FieldClass :=
  match selectorFc with
  | none => .ok (.mk false false (.varNoSel [] []))
  | some sel =>
    if !isIntFamily sel.spec then .error .invalidKind
    else if isUnsignedIntFamily sel.spec then
      .ok (.mk false false (.varUSel (bt_field_class_freeze sel) [] []))
    else
      .ok (.mk false false (.varSSel (bt_field_class_freeze sel) [] []))

/-- Embedding of `bt_field_class_static_array_create`
(field-class.c:1454-1481) via `init_array_field_class`
(field-class.c:1425-1435), which freezes the element field class. -/
def bt_field_class_static_array_create
    (elementFc : FieldClass) (length : Nat) : FieldClass :=
  .mk false false (.staticArr (bt_field_class_freeze elementFc) length)

/-- Embedding of `bt_field_class_dynamic_array_create`
(field-class.c:1529-1566): the element field class is frozen by
`init_array_field_class`; when a length field class is supplied it must be
in the unsigned-integer family (`BT_ASSERT_PRE_FC_IS_UNSIGNED_INT`), a
reference is taken and it is frozen immediately
(`bt_field_class_freeze(length_fc)`, field-class.c:1555). -/
def bt_field_class_dynamic_array_create
    (elementFc : FieldClass) (lengthFc : Option FieldClass)
    : Except Err FieldClass :=
  match lengthFc with
  | none =>
    .ok (.mk false false (.dynArr (bt_field_class_freeze elementFc) none))
  | some lfc =>
    if !isUnsignedIntFamily lfc.spec then .error .invalidKind
    else
      .ok (.mk false false
        (.dynArr (bt_field_class_freeze elementFc)
          (some (bt_field_class_freeze lfc))))

/-- Modelled from the spec: `bt_integer_range_set_*_add_range`
(lib/integer-range-set.c is not part of the provided sources; spec section
4.1): "fails with `InvalidArgument` if `lower > upper`, or if the set is
already frozen", otherwise appends the inclusive range `[lower, upper]`. -/
def bt_integer_range_set_add_range (rs : RangeSet) (lower upper : Int)
    : Except Err RangeSet :=
  if rs.rsFrozen then .error .invalidArgument
  else if upper < lower then .error .invalidArgument
  else .ok ⟨rs.ranges ++ [⟨lower, upper⟩], rs.rsFrozen⟩

/-- Relation used to sort ranges for the overlap scan: compare lower
bounds. -/
def lowerLE (a b : IntRange) : Prop := a.lower ≤ b.lower

instance : DecidableRel lowerLE := fun a b => inferInstanceAs (Decidable (a.lower ≤ b.lower))

instance : IsTotal IntRange lowerLE := ⟨fun a b => Int.le_total a.lower b.lower⟩

instance : IsTrans IntRange lowerLE := ⟨fun _ _ _ h h' => le_trans h h'⟩

/-- Scan of a lower-bound-sorted range list: true iff some element's lower
bound is `<=` the previous element's upper bound. -/
def adjacentOverlapScan : List IntRange → Bool
  | [] => false
  | [_] => false
  | a :: b :: rest => (b.lower ≤ a.upper) || adjacentOverlapScan (b :: rest)

/-- Modelled from the spec: `bt_integer_range_set_*_has_overlaps`
(lib/integer-range-set.c is not part of the provided sources; spec section
4.1): "true iff any two ranges in the set have a non-empty intersection
(ranges are pairwise compared; treat as inclusive bounds, so `[1,5]` and
`[5,9]` overlap at `5`). Implementation approach: sort a working copy by
lower bound, then scan for any element whose lower bound is <= the previous
element's upper bound." -/
def bt_integer_range_set_has_overlaps (rs : RangeSet) : Bool :=
  adjacentOverlapScan (rs.ranges.insertionSort lowerLE)

/-- Inner loop of `ranges_overlap` (field-class.c:1130-1213): add every
range of a list to the accumulating full range set via `add_range`,
propagating any failure status. -/
def addRangeList (rs : RangeSet) : List IntRange → Except Err RangeSet
  | [] => .ok rs
  | r :: rest =>
    match bt_integer_range_set_add_range rs r.lower r.upper with
    | .error e => .error e
    | .ok rs' => addRangeList rs' rest

/-- Outer loop of `ranges_overlap` over the existing options: add every
existing option's ranges to the accumulating full range set. -/
def addOptionRanges (rs : RangeSet) : List VarOption → Except Err RangeSet
  | [] => .ok rs
  | o :: rest =>
    match addRangeList rs o.rangeSet.ranges with
    | .error e => .error e
    | .ok rs' => addOptionRanges rs' rest

/-- Embedding of `ranges_overlap` (field-class.c:1130-1213): build one fresh
range set holding all the ranges of all existing options plus the new range
set, then test it for overlaps. -/
def ranges_overlap (varFcOpts : List VarOption) (rangeSet : RangeSet)
    : Except Err Bool :=
  match addOptionRanges ⟨[], false⟩ varFcOpts with
  | .error e => .error e
  | .ok rs1 =>
    match addRangeList rs1 rangeSet.ranges with
    | .error e => .error e
    | .ok rs2 => .ok (bt_integer_range_set_has_overlaps rs2)

/-- Embedding of `create_variant_with_selector_option`
(field-class.c:795-827): build the named entry (freezing the option field
class), take a reference to the range set and freeze it
(`bt_integer_range_set_freeze`). -/
def create_variant_with_selector_option
    (name : String) (fc : FieldClass) (rangeSet : RangeSet) : VarOption :=
  .mk name true (bt_field_class_freeze fc) ⟨rangeSet.ranges, true⟩

/-- Append of the built option into the variant's container, mirroring
`append_named_field_class_to_container_field_class` on an option list. -/
def appendOptionToContainer
    (containerFrozen : Bool) (opts : List VarOption)
    (idx : List (String × Nat)) (opt : VarOption)
    : Except Err (List VarOption × List (String × Nat)) :=
  if containerFrozen then .error .invalidState
  else if (lookupName idx opt.name).isSome then .error .duplicateName
  else .ok (opts ++ [opt], (opt.name, opts.length) :: idx)

/-- Core of `append_option_to_variant_with_selector_field_class`
(field-class.c:1215-1265) on the variant's state.  Check order follows the
source: `BT_ASSERT_PRE(range_set->ranges->len > 0)` (empty range set), then
`ranges_overlap` (propagating its status), then
`BT_ASSERT_PRE(!has_overlap)` (`OverlappingRanges`), then the option is
created (freezing the option field class and the range set) and appended
(frozen-container and duplicate-name checks happen there). -/
def appendOptionCore
    (containerFrozen : Bool) (opts : List VarOption)
    (idx : List (String × Nat)) (name : String) (optionFc : FieldClass)
    (rangeSet : RangeSet)
    : Except Err (List VarOption × List (String × Nat)) :=
  if rangeSet.ranges.isEmpty then .error .emptyRangeSet
  else
    match ranges_overlap opts rangeSet with
    | .error e => .error e
    | .ok true => .error .overlappingRanges
    | .ok false =>
      appendOptionToContainer containerFrozen opts idx
        (create_variant_with_selector_option name optionFc rangeSet)

/-- Embedding of `bt_field_class_variant_with_unsigned_selector_append_option`
(field-class.c:1267-1276) via
`append_option_to_variant_with_selector_field_class`:
`BT_ASSERT_PRE_FC_HAS_ID(variant with unsigned selector)` then the shared
core. -/
def bt_field_class_variant_with_unsigned_selector_append_option
    (fc : FieldClass) (name : String) (optionFc : FieldClass)
    (rangeSet : RangeSet) : Except Err FieldClass :=
  match fc with
  | .mk fz part (.varUSel sel opts idx) =>
    match appendOptionCore fz opts idx name optionFc rangeSet with
    | .error e => .error e
    | .ok (opts', idx') => .ok (.mk fz part (.varUSel sel opts' idx'))
  | _ => .error .invalidKind

/-- Embedding of `bt_field_class_variant_with_signed_selector_append_option`
(field-class.c:1278-1287). -/
def bt_field_class_variant_with_signed_selector_append_option
    (fc : FieldClass) (name : String) (optionFc : FieldClass)
    (rangeSet : RangeSet) : Except Err FieldClass :=
  match fc with
  | .mk fz part (.varSSel sel opts idx) =>
    match appendOptionCore fz opts idx name optionFc rangeSet with
    | .error e => .error e
    | .ok (opts', idx') => .ok (.mk fz part (.varSSel sel opts' idx'))
  | _ => .error .invalidKind

/-- Specification-side predicate: two inclusive ranges have a non-empty
intersection. -/
def intersects (a b : IntRange) : Bool :=
  a.lower ≤ b.upper && b.lower ≤ a.upper

/-- Specification-side predicate: some two ranges at distinct positions of
the list have a non-empty intersection. -/
def pairwiseOverlap : List IntRange → Bool
  | [] => false
  | r :: rest => rest.any (fun s => intersects r s) || pairwiseOverlap rest

/-- Every range of the list is well formed (`lower <= upper`); this is the
shape `add_range` guarantees for every stored range. -/
def wfRanges (l : List IntRange) : Bool :=
  l.all (fun r => decide (r.lower ≤ r.upper))

/-- Concatenation of the range lists of a variant's options, in option
order, as accumulated by the first loop of `ranges_overlap`. -/
def optionRangeList : List VarOption → List IntRange
  | [] => []
  | o :: os => o.rangeSet.ranges ++ optionRangeList os

/-- One `name_to_index` binding is sound: it indexes an entry of `named_fcs`
carrying exactly that name. -/
def entryOk (nfs : List NamedFc) (p : String × Nat) : Bool :=
  match nfs[p.2]? with
  | some nf => nf.name == p.1
  | none => false

/-- Every `name_to_index` binding is sound. -/
def idxSound (nfs : List NamedFc) (idx : List (String × Nat)) : Bool :=
  idx.all (entryOk nfs)

/-- Every entry of `named_fcs`, counting positions from `i`, is found by a
`name_to_index` lookup of its name at its own position. -/
def idxCompleteAux (idx : List (String × Nat)) : Nat → List NamedFc → Bool
  | _, [] => true
  | i, nf :: rest =>
    (lookupName idx nf.name == some i) && idxCompleteAux idx (i + 1) rest

/-- Container invariant relating `named_fcs` and `name_to_index`: the table
is sound and complete for the entry list.  It holds for a fresh container
and is preserved by every successful append. -/
def containerInv (nfs : List NamedFc) (idx : List (String × Nat)) : Bool :=
  idxSound nfs idx && idxCompleteAux idx 0 nfs

theorem intersects_symm (a b : IntRange) : intersects a b = intersects b a := by
  simp [intersects, Bool.and_comm]

theorem any_eq_of_perm {l l' : List IntRange} (p : IntRange → Bool)
    (h : l.Perm l') : l.any p = l'.any p := by
  rw [Bool.eq_iff_iff, List.any_eq_true, List.any_eq_true]
  exact ⟨fun ⟨x, hx, hp⟩ => ⟨x, h.mem_iff.mp hx, hp⟩,
    fun ⟨x, hx, hp⟩ => ⟨x, h.mem_iff.mpr hx, hp⟩⟩

theorem all_eq_of_perm {l l' : List IntRange} (p : IntRange → Bool)
    (h : l.Perm l') : l.all p = l'.all p := by
  rw [Bool.eq_iff_iff, List.all_eq_true, List.all_eq_true]
  exact ⟨fun hall x hx => hall x (h.mem_iff.mpr hx),
    fun hall x hx => hall x (h.mem_iff.mp hx)⟩

theorem pairwiseOverlap_perm : ∀ {l l' : List IntRange}, l.Perm l' →
    pairwiseOverlap l = pairwiseOverlap l' := by
  intro l l' h
  induction h with
  | nil => rfl
  | cons x h ih =>
    simp only [pairwiseOverlap, ih, any_eq_of_perm _ h]
  | swap x y l =>
    simp only [pairwiseOverlap, List.any_cons]
    rw [intersects_symm y x]
    cases hxy : intersects x y <;> cases ha : l.any (fun s => intersects x s) <;>
      cases hb : l.any (fun s => intersects y s) <;>
      cases hp : pairwiseOverlap l <;> rfl
  | trans _ _ ih1 ih2 => exact ih1.trans ih2

theorem wfRanges_cons (r : IntRange) (l : List IntRange) :
    wfRanges (r :: l) = (decide (r.lower ≤ r.upper) && wfRanges l) := rfl

theorem adjacentScan_eq_pairwise : ∀ l : List IntRange,
    List.Sorted lowerLE l → wfRanges l = true →
    adjacentOverlapScan l = pairwiseOverlap l
  | [], _, _ => rfl
  | [_], _, _ => rfl
  | a :: b :: rest, hs, hwf => by
    have hsa := (List.sorted_cons.mp hs).1
    have hs' : List.Sorted lowerLE (b :: rest) := (List.sorted_cons.mp hs).2
    have hsb := (List.sorted_cons.mp hs').1
    have hwfa : a.lower ≤ a.upper := by
      have := hwf
      rw [wfRanges_cons] at this
      exact of_decide_eq_true (Bool.and_elim_left this)
    have hwf' : wfRanges (b :: rest) = true := by
      have := hwf
      rw [wfRanges_cons] at this
      exact Bool.and_elim_right this
    have hwfb : b.lower ≤ b.upper := by
      have := hwf'
      rw [wfRanges_cons] at this
      exact of_decide_eq_true (Bool.and_elim_left this)
    have hkey : decide (b.lower ≤ a.upper) =
        (b :: rest).any (fun s => intersects a s) := by
      by_cases h : b.lower ≤ a.upper
      · have hib : intersects a b = true := by
          have h1 : a.lower ≤ b.upper := le_trans (hsa b (by simp)) hwfb
          simp [intersects, h1, h]
        simp [List.any_cons, hib, h]
      · have hnone : ∀ c ∈ b :: rest, intersects a c = false := by
          intro c hc
          rcases List.mem_cons.mp hc with rfl | hc'
          · simp only [intersects, Bool.and_eq_false_iff, decide_eq_false_iff_not, not_le]
            exact Or.inr (not_le.mp h)
          · simp only [intersects, Bool.and_eq_false_iff, decide_eq_false_iff_not, not_le]
            exact Or.inr (lt_of_lt_of_le (not_le.mp h) (hsb c hc'))
        have hany : (b :: rest).any (fun s => intersects a s) = false := by
          rw [Bool.eq_false_iff]
          intro habs
          rcases List.any_eq_true.mp habs with ⟨c, hc, hic⟩
          rw [hnone c hc] at hic
          exact Bool.false_ne_true hic
        simp [hany, h]
    show (decide (b.lower ≤ a.upper) || adjacentOverlapScan (b :: rest)) =
      ((b :: rest).any (fun s => intersects a s) || pairwiseOverlap (b :: rest))
    rw [hkey, adjacentScan_eq_pairwise (b :: rest) hs' hwf']

theorem has_overlaps_eq_pairwise (l : List IntRange) (f : Bool)
    (hwf : wfRanges l = true) :
    bt_integer_range_set_has_overlaps ⟨l, f⟩ = pairwiseOverlap l := by
  unfold bt_integer_range_set_has_overlaps
  have hperm := List.perm_insertionSort lowerLE l
  have hsort := List.sorted_insertionSort lowerLE l
  have hwf' : wfRanges (l.insertionSort lowerLE) = true := by
    unfold wfRanges at hwf ⊢
    rw [all_eq_of_perm _ hperm]
    exact hwf
  rw [adjacentScan_eq_pairwise _ hsort hwf', pairwiseOverlap_perm hperm]

theorem addRangeList_ok : ∀ (l : List IntRange) (acc : List IntRange),
    wfRanges l = true →
    addRangeList ⟨acc, false⟩ l = .ok ⟨acc ++ l, false⟩
  | [], acc, _ => by simp [addRangeList]
  | r :: rest, acc, hwf => by
    have hr : r.lower ≤ r.upper := by
      rw [wfRanges_cons] at hwf
      exact of_decide_eq_true (Bool.and_elim_left hwf)
    have hwf' : wfRanges rest = true := by
      rw [wfRanges_cons] at hwf
      exact Bool.and_elim_right hwf
    have hadd : bt_integer_range_set_add_range ⟨acc, false⟩ r.lower r.upper =
        .ok ⟨acc ++ [r], false⟩ := by
      simp [bt_integer_range_set_add_range, not_lt.mpr hr]
    simp only [addRangeList, hadd]
    rw [addRangeList_ok rest (acc ++ [r]) hwf']
    simp

theorem addOptionRanges_ok : ∀ (opts : List VarOption) (acc : List IntRange),
    wfRanges (optionRangeList opts) = true →
    addOptionRanges ⟨acc, false⟩ opts = .ok ⟨acc ++ optionRangeList opts, false⟩
  | [], acc, _ => by simp [addOptionRanges, optionRangeList]
  | o :: rest, acc, hwf => by
    have hsplit : wfRanges o.rangeSet.ranges = true ∧
        wfRanges (optionRangeList rest) = true := by
      have h := hwf
      unfold optionRangeList at h
      unfold wfRanges at h ⊢
      rw [List.all_append] at h
      exact ⟨Bool.and_elim_left h, Bool.and_elim_right h⟩
    simp only [addOptionRanges, addRangeList_ok o.rangeSet.ranges acc hsplit.1]
    rw [addOptionRanges_ok rest (acc ++ o.rangeSet.ranges) hsplit.2]
    simp [optionRangeList]

theorem ranges_overlap_ok (opts : List VarOption) (rangeSet : RangeSet)
    (hwf : wfRanges (optionRangeList opts ++ rangeSet.ranges) = true) :
    ranges_overlap opts rangeSet =
      .ok (pairwiseOverlap (optionRangeList opts ++ rangeSet.ranges)) := by
  have hsplit : wfRanges (optionRangeList opts) = true ∧
      wfRanges rangeSet.ranges = true := by
    unfold wfRanges at hwf ⊢
    rw [List.all_append] at hwf
    exact ⟨Bool.and_elim_left hwf, Bool.and_elim_right hwf⟩
  unfold ranges_overlap
  have h1 := addOptionRanges_ok opts [] hsplit.1
  rw [List.nil_append] at h1
  have h2 := addRangeList_ok rangeSet.ranges (optionRangeList opts) hsplit.2
  simp only [h1, h2, has_overlaps_eq_pairwise _ _ hwf]


theorem completeAux_lookup :
    ∀ (l : List NamedFc) (idx : List (String × Nat)) (i : Nat),
    idxCompleteAux idx i l = true →
    ∀ (k : Nat) (h : k < l.length),
      lookupName idx (l.get ⟨k, h⟩).name = some (i + k)
  | [], _, _, _, k, h => absurd h (Nat.not_lt_zero k)
  | nf :: rest, idx, i, hc, k, h => by
    rw [idxCompleteAux] at hc
    have h1 : lookupName idx nf.name = some i :=
      eq_of_beq (Bool.and_elim_left hc)
    have h2 : idxCompleteAux idx (i + 1) rest = true := Bool.and_elim_right hc
    match k with
    | 0 => simpa using h1
    | k' + 1 =>
      have := completeAux_lookup rest idx (i + 1) h2 k'
        (Nat.lt_of_succ_lt_succ h)
      simpa [Nat.add_assoc, Nat.add_comm 1 k'] using this

theorem completeAux_extend :
    ∀ (l : List NamedFc) (idx : List (String × Nat)) (i j : Nat) (nm : String),
    idxCompleteAux idx i l = true → lookupName idx nm = none →
    idxCompleteAux ((nm, j) :: idx) i l = true
  | [], _, _, _, _, _, _ => rfl
  | nf :: rest, idx, i, j, nm, hc, hnone => by
    rw [idxCompleteAux] at hc
    have h1 : lookupName idx nf.name = some i :=
      eq_of_beq (Bool.and_elim_left hc)
    have h2 : idxCompleteAux idx (i + 1) rest = true := Bool.and_elim_right hc
    have hne : nm ≠ nf.name := by
      intro heq
      rw [heq, h1] at hnone
      exact Option.some_ne_none i hnone
    rw [idxCompleteAux, lookupName, if_neg hne, h1]
    simp only [beq_self_eq_true, Bool.true_and]
    exact completeAux_extend rest idx (i + 1) j nm h2 hnone

theorem completeAux_append :
    ∀ (l : List NamedFc) (idx : List (String × Nat)) (i : Nat)
      (named : NamedFc),
    idxCompleteAux idx i l = true → lookupName idx named.name = none →
    idxCompleteAux ((named.name, i + l.length) :: idx) i (l ++ [named]) = true
  | [], idx, i, named, _, _ => by
    simp [idxCompleteAux, lookupName]
  | nf :: rest, idx, i, named, hc, hnone => by
    rw [idxCompleteAux] at hc
    have h1 : lookupName idx nf.name = some i :=
      eq_of_beq (Bool.and_elim_left hc)
    have h2 : idxCompleteAux idx (i + 1) rest = true := Bool.and_elim_right hc
    have hne : named.name ≠ nf.name := by
      intro heq
      rw [heq, h1] at hnone
      exact Option.some_ne_none i hnone
    have hlen : i + (nf :: rest).length = (i + 1) + rest.length := by
      simp [List.length_cons]
      omega
    rw [List.cons_append, idxCompleteAux, hlen, lookupName, if_neg hne, h1]
    simp only [beq_self_eq_true, Bool.true_and]
    exact completeAux_append rest idx (i + 1) named h2 hnone

theorem entryOk_append (nfs : List NamedFc) (named : NamedFc)
    (p : String × Nat) (h : entryOk nfs p = true) :
    entryOk (nfs ++ [named]) p = true := by
  unfold entryOk at h ⊢
  cases hget : nfs[p.2]? with
  | none => rw [hget] at h; exact absurd h Bool.false_ne_true
  | some nf =>
    rw [hget] at h
    have hlt : p.2 < nfs.length := by
      by_contra hge
      rw [List.getElem?_eq_none (Nat.le_of_not_lt hge)] at hget
      exact Option.noConfusion hget
    rw [List.getElem?_append, if_pos hlt, hget]
    exact h

theorem idxSound_append (nfs : List NamedFc) (idx : List (String × Nat))
    (named : NamedFc) (hs : idxSound nfs idx = true) :
    idxSound (nfs ++ [named]) ((named.name, nfs.length) :: idx) = true := by
  unfold idxSound at hs ⊢
  rw [List.all_cons]
  have hnew : entryOk (nfs ++ [named]) (named.name, nfs.length) = true := by
    unfold entryOk
    have : (nfs ++ [named])[nfs.length]? = some named := by simp
    rw [this]
    simp
  rw [hnew]
  simp only [Bool.true_and]
  rw [List.all_eq_true] at hs ⊢
  exact fun p hp => entryOk_append nfs named p (hs p hp)

theorem containerInv_nil : containerInv [] [] = true := rfl

/-- Successful appends preserve the container invariant, append the entry at
the end and record `name -> old length`. -/
theorem containerInv_append (nfs : List NamedFc) (idx : List (String × Nat))
    (named : NamedFc) (nfs' : List NamedFc) (idx' : List (String × Nat))
    (hinv : containerInv nfs idx = true)
    (happ : append_named_field_class_to_container_field_class false nfs idx
      named = .ok (nfs', idx')) :
    containerInv nfs' idx' = true ∧ nfs' = nfs ++ [named] ∧
      idx' = (named.name, nfs.length) :: idx := by
  unfold append_named_field_class_to_container_field_class at happ
  rw [if_neg (by exact Bool.false_ne_true)] at happ
  by_cases hlk : (lookupName idx named.name).isSome
  · rw [if_pos hlk] at happ
    exact absurd happ (by intro h; exact Except.noConfusion h)
  · rw [if_neg hlk] at happ
    have hok := Except.ok.inj happ
    have hnfs : nfs' = nfs ++ [named] := ((Prod.ext_iff.mp hok).1).symm
    have hidx : idx' = (named.name, nfs.length) :: idx := ((Prod.ext_iff.mp hok).2).symm
    have hnone : lookupName idx named.name = none :=
      Option.not_isSome_iff_eq_none.mp hlk
    have hs : idxSound nfs idx = true :=
      Bool.and_elim_left hinv
    have hc : idxCompleteAux idx 0 nfs = true :=
      Bool.and_elim_right hinv
    refine ⟨?_, hnfs, hidx⟩
    rw [hnfs, hidx]
    unfold containerInv
    rw [idxSound_append nfs idx named hs]
    have := completeAux_append nfs idx 0 named hc hnone
    rw [Nat.zero_add] at this
    rw [this]
    rfl

theorem borrow_by_name_correct (nfs : List NamedFc)
    (idx : List (String × Nat)) (hinv : containerInv nfs idx = true)
    (k : Nat) (h : k < nfs.length) :
    borrow_named_field_class_from_container_field_class_by_name nfs idx
      (nfs.get ⟨k, h⟩).name = some (nfs.get ⟨k, h⟩) := by
  have hc : idxCompleteAux idx 0 nfs = true := Bool.and_elim_right hinv
  have hlk := completeAux_lookup nfs idx 0 hc k h
  rw [Nat.zero_add] at hlk
  unfold borrow_named_field_class_from_container_field_class_by_name
  rw [hlk]
  show nfs[k]? = some (nfs.get ⟨k, h⟩)
  rw [List.getElem?_eq_getElem h]
  simp

theorem append_duplicate_fails (nfs : List NamedFc)
    (idx : List (String × Nat)) (named : NamedFc)
    (k : Nat) (h : k < nfs.length) (hinv : containerInv nfs idx = true)
    (hname : named.name = (nfs.get ⟨k, h⟩).name) :
    append_named_field_class_to_container_field_class false nfs idx named =
      .error .duplicateName := by
  have hc : idxCompleteAux idx 0 nfs = true := Bool.and_elim_right hinv
  have hlk := completeAux_lookup nfs idx 0 hc k h
  rw [Nat.zero_add] at hlk
  unfold append_named_field_class_to_container_field_class
  rw [if_neg (by exact Bool.false_ne_true), hname]
  rw [if_pos (by rw [hlk]; rfl)]

mutual

theorem mark_subtreeMarked : ∀ (fc fc' : FieldClass),
    bt_field_class_make_part_of_trace_class fc = .ok fc' →
    subtreeMarked fc' = true
  | .mk _ true _, fc', h => by
    simp only [bt_field_class_make_part_of_trace_class] at h
    rw [if_pos trivial] at h
    exact Except.noConfusion h
  | .mk fz false spec, fc', h => by
    simp only [bt_field_class_make_part_of_trace_class] at h
    cases hms : markSpec spec with
    | error e => rw [hms] at h; exact Except.noConfusion h
    | ok spec' =>
      rw [hms] at h
      have heq : FieldClass.mk fz true spec' = fc' := Except.ok.inj h
      rw [← heq, subtreeMarked, Bool.true_and]
      exact markSpec_subtreeMarked spec spec' hms

theorem markSpec_subtreeMarked : ∀ (s s' : FcSpec),
    markSpec s = .ok s' → subtreeMarkedSpec s' = true
  | .uInt r b, s', h => by
    simp only [markSpec] at h
    rw [← Except.ok.inj h]; rfl
  | .sInt r b, s', h => by
    simp only [markSpec] at h
    rw [← Except.ok.inj h]; rfl
  | .uEnum r b m, s', h => by
    simp only [markSpec] at h
    rw [← Except.ok.inj h]; rfl
  | .sEnum r b m, s', h => by
    simp only [markSpec] at h
    rw [← Except.ok.inj h]; rfl
  | .real p, s', h => by
    simp only [markSpec] at h
    rw [← Except.ok.inj h]; rfl
  | .str, s', h => by
    simp only [markSpec] at h
    rw [← Except.ok.inj h]; rfl
  | .struct nfs idx, s', h => by
    simp only [markSpec] at h
    cases hml : markNamedList nfs with
    | error e => rw [hml] at h; exact Except.noConfusion h
    | ok nfs' =>
      rw [hml] at h
      rw [← Except.ok.inj h]
      exact markNamedList_subtreeMarked nfs nfs' hml
  | .varNoSel nfs idx, s', h => by
    simp only [markSpec] at h
    cases hml : markNamedList nfs with
    | error e => rw [hml] at h; exact Except.noConfusion h
    | ok nfs' =>
      rw [hml] at h
      rw [← Except.ok.inj h]
      exact markNamedList_subtreeMarked nfs nfs' hml
  | .varUSel sel opts idx, s', h => by
    simp only [markSpec] at h
    cases hml : markOptList opts with
    | error e => rw [hml] at h; exact Except.noConfusion h
    | ok opts' =>
      rw [hml] at h
      rw [← Except.ok.inj h]
      exact markOptList_subtreeMarked opts opts' hml
  | .varSSel sel opts idx, s', h => by
    simp only [markSpec] at h
    cases hml : markOptList opts with
    | error e => rw [hml] at h; exact Except.noConfusion h
    | ok opts' =>
      rw [hml] at h
      rw [← Except.ok.inj h]
      exact markOptList_subtreeMarked opts opts' hml
  | .staticArr el len, s', h => by
    simp only [markSpec] at h
    cases hme : bt_field_class_make_part_of_trace_class el with
    | error e => rw [hme] at h; exact Except.noConfusion h
    | ok el' =>
      rw [hme] at h
      rw [← Except.ok.inj h]
      exact mark_subtreeMarked el el' hme
  | .dynArr el lfc, s', h => by
    simp only [markSpec] at h
    cases hme : bt_field_class_make_part_of_trace_class el with
    | error e => rw [hme] at h; exact Except.noConfusion h
    | ok el' =>
      rw [hme] at h
      rw [← Except.ok.inj h]
      exact mark_subtreeMarked el el' hme

theorem markNamedList_subtreeMarked : ∀ (l l' : List NamedFc),
    markNamedList l = .ok l' → subtreeMarkedNamedList l' = true
  | [], l', h => by
    simp only [markNamedList] at h
    rw [← Except.ok.inj h]; rfl
  | .mk n f fc :: rest, l', h => by
    simp only [markNamedList] at h
    cases hme : bt_field_class_make_part_of_trace_class fc with
    | error e => rw [hme] at h; exact Except.noConfusion h
    | ok fc' =>
      rw [hme] at h
      cases hml : markNamedList rest with
      | error e => rw [hml] at h; exact Except.noConfusion h
      | ok rest' =>
        rw [hml] at h
        rw [← Except.ok.inj h, subtreeMarkedNamedList]
        rw [mark_subtreeMarked fc fc' hme,
          markNamedList_subtreeMarked rest rest' hml]
        rfl

theorem markOptList_subtreeMarked : ∀ (l l' : List VarOption),
    markOptList l = .ok l' → subtreeMarkedOptList l' = true
  | [], l', h => by
    simp only [markOptList] at h
    rw [← Except.ok.inj h]; rfl
  | .mk n f fc rs :: rest, l', h => by
    simp only [markOptList] at h
    cases hme : bt_field_class_make_part_of_trace_class fc with
    | error e => rw [hme] at h; exact Except.noConfusion h
    | ok fc' =>
      rw [hme] at h
      cases hml : markOptList rest with
      | error e => rw [hml] at h; exact Except.noConfusion h
      | ok rest' =>
        rw [hml] at h
        rw [← Except.ok.inj h, subtreeMarkedOptList]
        rw [mark_subtreeMarked fc fc' hme,
          markOptList_subtreeMarked rest rest' hml]
        rfl

end

mutual

theorem mark_stripPart : ∀ (fc fc' : FieldClass),
    bt_field_class_make_part_of_trace_class fc = .ok fc' →
    stripPart fc' = stripPart fc
  | .mk _ true _, fc', h => by
    simp only [bt_field_class_make_part_of_trace_class] at h
    rw [if_pos trivial] at h
    exact Except.noConfusion h
  | .mk fz false spec, fc', h => by
    simp only [bt_field_class_make_part_of_trace_class] at h
    cases hms : markSpec spec with
    | error e => rw [hms] at h; exact Except.noConfusion h
    | ok spec' =>
      rw [hms] at h
      have heq : FieldClass.mk fz true spec' = fc' := Except.ok.inj h
      rw [← heq]
      show FieldClass.mk fz false (stripPartSpec spec') =
        FieldClass.mk fz false (stripPartSpec spec)
      rw [markSpec_stripPart spec spec' hms]

theorem markSpec_stripPart : ∀ (s s' : FcSpec),
    markSpec s = .ok s' → stripPartSpec s' = stripPartSpec s
  | .uInt r b, s', h => by
    simp only [markSpec] at h
    rw [← Except.ok.inj h]
  | .sInt r b, s', h => by
    simp only [markSpec] at h
    rw [← Except.ok.inj h]
  | .uEnum r b m, s', h => by
    simp only [markSpec] at h
    rw [← Except.ok.inj h]
  | .sEnum r b m, s', h => by
    simp only [markSpec] at h
    rw [← Except.ok.inj h]
  | .real p, s', h => by
    simp only [markSpec] at h
    rw [← Except.ok.inj h]
  | .str, s', h => by
    simp only [markSpec] at h
    rw [← Except.ok.inj h]
  | .struct nfs idx, s', h => by
    simp only [markSpec] at h
    cases hml : markNamedList nfs with
    | error e => rw [hml] at h; exact Except.noConfusion h
    | ok nfs' =>
      rw [hml] at h
      rw [← Except.ok.inj h]
      show FcSpec.struct (stripPartNamedList nfs') idx =
        FcSpec.struct (stripPartNamedList nfs) idx
      rw [markNamedList_stripPart nfs nfs' hml]
  | .varNoSel nfs idx, s', h => by
    simp only [markSpec] at h
    cases hml : markNamedList nfs with
    | error e => rw [hml] at h; exact Except.noConfusion h
    | ok nfs' =>
      rw [hml] at h
      rw [← Except.ok.inj h]
      show FcSpec.varNoSel (stripPartNamedList nfs') idx =
        FcSpec.varNoSel (stripPartNamedList nfs) idx
      rw [markNamedList_stripPart nfs nfs' hml]
  | .varUSel sel opts idx, s', h => by
    simp only [markSpec] at h
    cases hml : markOptList opts with
    | error e => rw [hml] at h; exact Except.noConfusion h
    | ok opts' =>
      rw [hml] at h
      rw [← Except.ok.inj h]
      show FcSpec.varUSel (stripPart sel) (stripPartOptList opts') idx =
        FcSpec.varUSel (stripPart sel) (stripPartOptList opts) idx
      rw [markOptList_stripPart opts opts' hml]
  | .varSSel sel opts idx, s', h => by
    simp only [markSpec] at h
    cases hml : markOptList opts with
    | error e => rw [hml] at h; exact Except.noConfusion h
    | ok opts' =>
      rw [hml] at h
      rw [← Except.ok.inj h]
      show FcSpec.varSSel (stripPart sel) (stripPartOptList opts') idx =
        FcSpec.varSSel (stripPart sel) (stripPartOptList opts) idx
      rw [markOptList_stripPart opts opts' hml]
  | .staticArr el len, s', h => by
    simp only [markSpec] at h
    cases hme : bt_field_class_make_part_of_trace_class el with
    | error e => rw [hme] at h; exact Except.noConfusion h
    | ok el' =>
      rw [hme] at h
      rw [← Except.ok.inj h]
      show FcSpec.staticArr (stripPart el') len = FcSpec.staticArr (stripPart el) len
      rw [mark_stripPart el el' hme]
  | .dynArr el lfc, s', h => by
    simp only [markSpec] at h
    cases hme : bt_field_class_make_part_of_trace_class el with
    | error e => rw [hme] at h; exact Except.noConfusion h
    | ok el' =>
      rw [hme] at h
      rw [← Except.ok.inj h]
      show FcSpec.dynArr (stripPart el') (stripPartOpt lfc) =
        FcSpec.dynArr (stripPart el) (stripPartOpt lfc)
      rw [mark_stripPart el el' hme]

theorem markNamedList_stripPart : ∀ (l l' : List NamedFc),
    markNamedList l = .ok l' → stripPartNamedList l' = stripPartNamedList l
  | [], l', h => by
    simp only [markNamedList] at h
    rw [← Except.ok.inj h]
  | .mk n f fc :: rest, l', h => by
    simp only [markNamedList] at h
    cases hme : bt_field_class_make_part_of_trace_class fc with
    | error e => rw [hme] at h; exact Except.noConfusion h
    | ok fc' =>
      rw [hme] at h
      cases hml : markNamedList rest with
      | error e => rw [hml] at h; exact Except.noConfusion h
      | ok rest' =>
        rw [hml] at h
        rw [← Except.ok.inj h]
        show NamedFc.mk n f (stripPart fc') :: stripPartNamedList rest' =
          NamedFc.mk n f (stripPart fc) :: stripPartNamedList rest
        rw [mark_stripPart fc fc' hme, markNamedList_stripPart rest rest' hml]

theorem markOptList_stripPart : ∀ (l l' : List VarOption),
    markOptList l = .ok l' → stripPartOptList l' = stripPartOptList l
  | [], l', h => by
    simp only [markOptList] at h
    rw [← Except.ok.inj h]
  | .mk n f fc rs :: rest, l', h => by
    simp only [markOptList] at h
    cases hme : bt_field_class_make_part_of_trace_class fc with
    | error e => rw [hme] at h; exact Except.noConfusion h
    | ok fc' =>
      rw [hme] at h
      cases hml : markOptList rest with
      | error e => rw [hml] at h; exact Except.noConfusion h
      | ok rest' =>
        rw [hml] at h
        rw [← Except.ok.inj h]
        show VarOption.mk n f (stripPart fc') rs :: stripPartOptList rest' =
          VarOption.mk n f (stripPart fc) rs :: stripPartOptList rest
        rw [mark_stripPart fc fc' hme, markOptList_stripPart rest rest' hml]

end

theorem mark_ok_inv (fz part : Bool) (spec : FcSpec) (fc' : FieldClass)
    (h : bt_field_class_make_part_of_trace_class (.mk fz part spec) = .ok fc') :
    part = false ∧ ∃ spec', markSpec spec = .ok spec' ∧
      fc' = .mk fz true spec' := by
  cases part with
  | true =>
    simp only [bt_field_class_make_part_of_trace_class] at h
    rw [if_pos trivial] at h
    exact Except.noConfusion h
  | false =>
    simp only [bt_field_class_make_part_of_trace_class] at h
    refine ⟨rfl, ?_⟩
    cases hms : markSpec spec with
    | error e => rw [hms] at h; exact Except.noConfusion h
    | ok spec' =>
      rw [hms] at h
      exact ⟨spec', rfl, (Except.ok.inj h).symm⟩

theorem mark_already_part_fails (fc : FieldClass) (hp : fc.part = true) :
    bt_field_class_make_part_of_trace_class fc = .error .invalidState := by
  cases fc with
  | mk fz part spec =>
    cases part with
    | true =>
      simp only [bt_field_class_make_part_of_trace_class]
      rw [if_pos trivial]
    | false => exact absurd hp (by simp [FieldClass.part])

/-- C2 counterexample: marking a freshly created (never frozen) unsigned
integer field class as part of a trace class succeeds and yields a state
with `part_of_trace_class = true` but `frozen = false`, so the claimed
invariant `part_of_trace_class ⇒ frozen` does not hold after a successful
`bt_field_class_make_part_of_trace_class`, which never sets the frozen
flag. -/
theorem claim2_counterexample :
    bt_field_class_make_part_of_trace_class
        bt_field_class_unsigned_integer_create =
      .ok (.mk false true (.uInt 64 .decimal)) ∧
    (FieldClass.mk false true (.uInt 64 .decimal)).part = true ∧
    (FieldClass.mk false true (.uInt 64 .decimal)).frozen = false :=
  ⟨rfl, rfl, rfl⟩

/-- C2 (amended): a successful `bt_field_class_make_part_of_trace_class`
sets the part-of-trace-class flag on the field class and on every field
class it recursed into (structure/variant members, array elements), and
changes nothing else — in particular it does not freeze anything, so
`part_of_trace_class ⇒ frozen` holds only if the caller froze the subtree
beforehand. -/
theorem claim2_mark_sets_part_only (fc fc' : FieldClass)
    (h : bt_field_class_make_part_of_trace_class fc = .ok fc') :
    subtreeMarked fc' = true ∧ stripPart fc' = stripPart fc :=
  ⟨mark_subtreeMarked fc fc' h, mark_stripPart fc fc' h⟩

/-- C2 witness: the amended theorem applied to the counterexample's input. -/
theorem claim2_witness :
    bt_field_class_make_part_of_trace_class
        bt_field_class_unsigned_integer_create =
      .ok (.mk false true (.uInt 64 .decimal)) ∧
    subtreeMarked (.mk false true (.uInt 64 .decimal)) = true ∧
    stripPart (.mk false true (.uInt 64 .decimal)) =
      stripPart bt_field_class_unsigned_integer_create :=
  ⟨rfl,
    (claim2_mark_sets_part_only bt_field_class_unsigned_integer_create _ rfl).1,
    (claim2_mark_sets_part_only bt_field_class_unsigned_integer_create _ rfl).2⟩

/-- C4: `bt_field_class_make_part_of_trace_class` succeeds at most once per
field class: a call on a field class whose flag is already set fails
immediately with `InvalidState` (before mutating anything, so the state is
unchanged); a successful call sets the flag on the field class and on the
structure/variant members and array elements it recursed into; and calling
it again on the result fails with `InvalidState`. -/
theorem claim4_single_attachment :
    (∀ fc : FieldClass, fc.part = true →
      bt_field_class_make_part_of_trace_class fc = .error .invalidState) ∧
    (∀ fc fc' : FieldClass,
      bt_field_class_make_part_of_trace_class fc = .ok fc' →
      fc'.part = true ∧ subtreeMarked fc' = true ∧
        bt_field_class_make_part_of_trace_class fc' =
          .error .invalidState) := by
  refine ⟨mark_already_part_fails, ?_⟩
  intro fc fc' h
  cases fc with
  | mk fz part spec =>
    obtain ⟨-, spec', -, hfc'⟩ := mark_ok_inv fz part spec fc' h
    have hpart : fc'.part = true := by rw [hfc']; rfl
    exact ⟨hpart, mark_subtreeMarked _ _ h, mark_already_part_fails fc' hpart⟩

/-- C4 witness: a fresh structure holding one member is marked once
(success) and the parts of the theorem apply to it. -/
theorem claim4_witness :
    (FieldClass.mk false true (.uInt 64 .decimal)).part = true ∧
    bt_field_class_make_part_of_trace_class
        (.mk false true (.uInt 64 .decimal)) = .error .invalidState ∧
    bt_field_class_make_part_of_trace_class
        bt_field_class_unsigned_integer_create =
      .ok (.mk false true (.uInt 64 .decimal)) ∧
    (FieldClass.mk false true (.uInt 64 .decimal)).part = true ∧
    subtreeMarked (.mk false true (.uInt 64 .decimal)) = true :=
  ⟨rfl, claim4_single_attachment.1 _ rfl, rfl,
    (claim4_single_attachment.2 bt_field_class_unsigned_integer_create _ rfl).1,
    (claim4_single_attachment.2 bt_field_class_unsigned_integer_create _ rfl).2.1⟩

/-- C10: `bt_field_class_make_part_of_trace_class` recurses only into
structure/variant members and array elements: on a selector variant it
leaves the stored selector field class entirely unchanged (in particular
its part-of-trace-class flag), and on a dynamic array it leaves the stored
length field class entirely unchanged. -/
theorem claim10_mark_skips_selector_and_length :
    (∀ (fz part : Bool) (sel : FieldClass) (opts : List VarOption)
        (idx : List (String × Nat)) (fc' : FieldClass),
      bt_field_class_make_part_of_trace_class
          (.mk fz part (.varUSel sel opts idx)) = .ok fc' →
      ∃ opts', fc' = .mk fz true (.varUSel sel opts' idx)) ∧
    (∀ (fz part : Bool) (sel : FieldClass) (opts : List VarOption)
        (idx : List (String × Nat)) (fc' : FieldClass),
      bt_field_class_make_part_of_trace_class
          (.mk fz part (.varSSel sel opts idx)) = .ok fc' →
      ∃ opts', fc' = .mk fz true (.varSSel sel opts' idx)) ∧
    (∀ (fz part : Bool) (el : FieldClass) (lfc : Option FieldClass)
        (fc' : FieldClass),
      bt_field_class_make_part_of_trace_class
          (.mk fz part (.dynArr el lfc)) = .ok fc' →
      ∃ el', fc' = .mk fz true (.dynArr el' lfc)) := by
  refine ⟨?_, ?_, ?_⟩
  · intro fz part sel opts idx fc' h
    obtain ⟨-, spec', hms, hfc'⟩ := mark_ok_inv _ _ _ _ h
    simp only [markSpec] at hms
    cases hml : markOptList opts with
    | error e => rw [hml] at hms; exact Except.noConfusion hms
    | ok opts' =>
      rw [hml] at hms
      exact ⟨opts', by rw [hfc', ← Except.ok.inj hms]⟩
  · intro fz part sel opts idx fc' h
    obtain ⟨-, spec', hms, hfc'⟩ := mark_ok_inv _ _ _ _ h
    simp only [markSpec] at hms
    cases hml : markOptList opts with
    | error e => rw [hml] at hms; exact Except.noConfusion hms
    | ok opts' =>
      rw [hml] at hms
      exact ⟨opts', by rw [hfc', ← Except.ok.inj hms]⟩
  · intro fz part el lfc fc' h
    obtain ⟨-, spec', hms, hfc'⟩ := mark_ok_inv _ _ _ _ h
    simp only [markSpec] at hms
    cases hme : bt_field_class_make_part_of_trace_class el with
    | error e => rw [hme] at hms; exact Except.noConfusion hms
    | ok el' =>
      rw [hme] at hms
      exact ⟨el', by rw [hfc', ← Except.ok.inj hms]⟩

/-- C10 witness: marking a selector variant whose selector is unmarked and
a dynamic array with an unmarked length field class; the theorem applies to
both. -/
theorem claim10_witness :
    (∃ opts',
      FieldClass.mk false true
          (.varUSel (.mk true false (.uInt 64 .decimal)) [] []) =
        .mk false true (.varUSel (.mk true false (.uInt 64 .decimal)) opts' [])) ∧
    (∃ el',
      FieldClass.mk false true
          (.dynArr (.mk true true (.str))
            (some (.mk true false (.uInt 64 .decimal)))) =
        .mk false true (.dynArr el' (some (.mk true false (.uInt 64 .decimal))))) :=
  ⟨claim10_mark_skips_selector_and_length.1 false false
      (.mk true false (.uInt 64 .decimal)) [] []
      (.mk false true (.varUSel (.mk true false (.uInt 64 .decimal)) [] [])) rfl,
    claim10_mark_skips_selector_and_length.2.2 false false
      (.mk true false (.str)) (some (.mk true false (.uInt 64 .decimal)))
      (.mk false true (.dynArr (.mk true true (.str))
        (some (.mk true false (.uInt 64 .decimal))))) rfl⟩

theorem appendOptionCore_frozen_fails (opts : List VarOption)
    (idx : List (String × Nat)) (name : String) (ofc : FieldClass)
    (rs : RangeSet) :
    ∃ e, appendOptionCore true opts idx name ofc rs = .error e := by
  unfold appendOptionCore
  by_cases h : rs.ranges.isEmpty
  · rw [if_pos h]
    exact ⟨.emptyRangeSet, rfl⟩
  · rw [if_neg h]
    cases hro : ranges_overlap opts rs with
    | error e => exact ⟨e, rfl⟩
    | ok b =>
      cases b with
      | true => exact ⟨.overlappingRanges, rfl⟩
      | false =>
        unfold appendOptionToContainer
        rw [if_pos rfl]
        exact ⟨.invalidState, rfl⟩

/-- C1 counterexample: `add_mapping` performs no frozen check
(field-class.c:504-536 has no `BT_ASSERT_PRE_DEV_FC_HOT`), so adding a
mapping to a frozen enumeration field class succeeds instead of failing as
the claim states. -/
theorem claim1_counterexample :
    (bt_field_class_freeze bt_field_class_unsigned_enumeration_create).frozen
      = true ∧
    bt_field_class_unsigned_enumeration_add_mapping
        (bt_field_class_freeze bt_field_class_unsigned_enumeration_create)
        "a" ⟨[⟨0, 1⟩], false⟩ =
      .ok (.mk true false (.uEnum 64 .decimal [⟨"a", ⟨[⟨0, 1⟩], false⟩⟩])) :=
  ⟨rfl, rfl⟩

/-- C1 (amended): on a frozen field class, `set_field_value_range` and
`set_preferred_display_base` fail with `InvalidState` (for any
integer-family field class), appending a member to a frozen structure and
an option to a frozen variant of any flavor fails; `add_mapping`, however,
performs no frozen check and succeeds on a frozen enumeration whenever the
label is not already present. -/
theorem claim1_freeze_monotonicity :
    (∀ (part : Bool) (spec : FcSpec) (size : Nat), isIntFamily spec = true →
      bt_field_class_integer_set_field_value_range (.mk true part spec) size =
        .error .invalidState) ∧
    (∀ (part : Bool) (spec : FcSpec) (base : DisplayBase),
      isIntFamily spec = true →
      bt_field_class_integer_set_preferred_display_base (.mk true part spec)
        base = .error .invalidState) ∧
    (∀ (part : Bool) (nfs : List NamedFc) (idx : List (String × Nat))
        (name : String) (mfc : FieldClass),
      bt_field_class_structure_append_member (.mk true part (.struct nfs idx))
        name mfc = .error .invalidState) ∧
    (∀ (part : Bool) (nfs : List NamedFc) (idx : List (String × Nat))
        (name : String) (ofc : FieldClass),
      bt_field_class_variant_without_selector_append_option
        (.mk true part (.varNoSel nfs idx)) name ofc = .error .invalidState) ∧
    (∀ (part : Bool) (sel : FieldClass) (opts : List VarOption)
        (idx : List (String × Nat)) (name : String) (ofc : FieldClass)
        (rs : RangeSet),
      (∃ e, bt_field_class_variant_with_unsigned_selector_append_option
        (.mk true part (.varUSel sel opts idx)) name ofc rs = .error e) ∧
      (∃ e, bt_field_class_variant_with_signed_selector_append_option
        (.mk true part (.varSSel sel opts idx)) name ofc rs = .error e)) ∧
    (∀ (part : Bool) (r : Nat) (b : DisplayBase) (maps : List EnumMapping)
        (label : String) (rs : RangeSet),
      enumeration_field_class_has_mapping_with_label maps label = false →
      bt_field_class_unsigned_enumeration_add_mapping
          (.mk true part (.uEnum r b maps)) label rs =
        .ok (.mk true part (.uEnum r b (maps ++ [⟨label, rs⟩])))) := by
  refine ⟨?_, ?_, ?_, ?_, ?_, ?_⟩
  · intro part spec size hint
    simp only [bt_field_class_integer_set_field_value_range, hint]
    rfl
  · intro part spec base hint
    simp only [bt_field_class_integer_set_preferred_display_base, hint]
    rfl
  · intro part nfs idx name mfc
    simp only [bt_field_class_structure_append_member,
      append_named_field_class_to_container_field_class]
    rw [if_pos trivial]
  · intro part nfs idx name ofc
    simp only [bt_field_class_variant_without_selector_append_option,
      append_named_field_class_to_container_field_class]
    rw [if_pos trivial]
  · intro part sel opts idx name ofc rs
    constructor
    · obtain ⟨e, he⟩ := appendOptionCore_frozen_fails opts idx name ofc rs
      refine ⟨e, ?_⟩
      simp only [bt_field_class_variant_with_unsigned_selector_append_option,
        he]
    · obtain ⟨e, he⟩ := appendOptionCore_frozen_fails opts idx name ofc rs
      refine ⟨e, ?_⟩
      simp only [bt_field_class_variant_with_signed_selector_append_option,
        he]
  · intro part r b maps label rs hno
    simp only [bt_field_class_unsigned_enumeration_add_mapping,
      add_mapping_to_enumeration_field_class, hno]
    rfl

/-- C1 witness: the theorem's parts applied to concrete frozen field
classes. -/
theorem claim1_witness :
    bt_field_class_integer_set_field_value_range
        (.mk true false (.uInt 64 .decimal)) 32 = .error .invalidState ∧
    bt_field_class_integer_set_preferred_display_base
        (.mk true false (.uInt 64 .decimal)) .hexadecimal =
      .error .invalidState ∧
    bt_field_class_structure_append_member (.mk true false (.struct [] []))
      "m" (.mk false false .str) = .error .invalidState ∧
    (∃ e, bt_field_class_variant_with_unsigned_selector_append_option
      (.mk true false (.varUSel (.mk true false (.uInt 64 .decimal)) [] []))
      "o" (.mk false false .str) ⟨[⟨0, 1⟩], false⟩ = .error e) ∧
    bt_field_class_unsigned_enumeration_add_mapping
        (.mk true false (.uEnum 64 .decimal [])) "a" ⟨[⟨0, 1⟩], false⟩ =
      .ok (.mk true false (.uEnum 64 .decimal [⟨"a", ⟨[⟨0, 1⟩], false⟩⟩])) :=
  ⟨claim1_freeze_monotonicity.1 false (.uInt 64 .decimal) 32 rfl,
    claim1_freeze_monotonicity.2.1 false (.uInt 64 .decimal) .hexadecimal rfl,
    claim1_freeze_monotonicity.2.2.1 false [] [] "m" (.mk false false .str),
    (claim1_freeze_monotonicity.2.2.2.2.1 false
      (.mk true false (.uInt 64 .decimal)) [] [] "o" (.mk false false .str)
      ⟨[⟨0, 1⟩], false⟩).1,
    claim1_freeze_monotonicity.2.2.2.2.2 false 64 .decimal [] "a"
      ⟨[⟨0, 1⟩], false⟩ rfl⟩

/-- C5: for a named-field-class container (the shared backing of structures
and all variant flavors), the invariant `containerInv` relating the entry
list and the name-to-index table holds for a fresh container and is
preserved by every successful append, which inserts the entry at the end
and records `name -> old length` (= new length - 1); under the invariant,
appending any already-present name fails with `DuplicateName`, and
`get_by_name` returns exactly the entry appended under that name. -/
theorem claim5_name_uniqueness :
    containerInv [] [] = true ∧
    (∀ (nfs : List NamedFc) (idx : List (String × Nat)) (named : NamedFc)
        (nfs' : List NamedFc) (idx' : List (String × Nat)),
      containerInv nfs idx = true →
      append_named_field_class_to_container_field_class false nfs idx named =
        .ok (nfs', idx') →
      containerInv nfs' idx' = true ∧ nfs' = nfs ++ [named] ∧
        lookupName idx' named.name = some nfs.length) ∧
    (∀ (nfs : List NamedFc) (idx : List (String × Nat)) (named : NamedFc)
        (k : Nat) (h : k < nfs.length),
      containerInv nfs idx = true →
      named.name = (nfs.get ⟨k, h⟩).name →
      append_named_field_class_to_container_field_class false nfs idx named =
        .error .duplicateName) ∧
    (∀ (nfs : List NamedFc) (idx : List (String × Nat)) (k : Nat)
        (h : k < nfs.length),
      containerInv nfs idx = true →
      borrow_named_field_class_from_container_field_class_by_name nfs idx
        (nfs.get ⟨k, h⟩).name = some (nfs.get ⟨k, h⟩)) := by
  refine ⟨containerInv_nil, ?_, ?_, ?_⟩
  · intro nfs idx named nfs' idx' hinv happ
    obtain ⟨hinv', hnfs, hidx⟩ := containerInv_append nfs idx named nfs' idx'
      hinv happ
    refine ⟨hinv', hnfs, ?_⟩
    rw [hidx, lookupName, if_pos rfl]
  · intro nfs idx named k h hinv hname
    exact append_duplicate_fails nfs idx named k h hinv hname
  · intro nfs idx k h hinv
    exact borrow_by_name_correct nfs idx hinv k h

/-- C5 witness: the theorem's parts applied to a concrete two-entry
container. -/
theorem claim5_witness :
    containerInv [NamedFc.mk "a" true (.mk true false .str)] [("a", 0)] =
      true ∧
    append_named_field_class_to_container_field_class false
        [NamedFc.mk "a" true (.mk true false .str)] [("a", 0)]
        (NamedFc.mk "b" true (.mk true false .str)) =
      .ok ([NamedFc.mk "a" true (.mk true false .str),
            NamedFc.mk "b" true (.mk true false .str)], [("b", 1), ("a", 0)]) ∧
    lookupName [("b", 1), ("a", 0)] "b" = some 1 ∧
    append_named_field_class_to_container_field_class false
        [NamedFc.mk "a" true (.mk true false .str)] [("a", 0)]
        (NamedFc.mk "a" false (.mk false false .str)) =
      .error .duplicateName ∧
    borrow_named_field_class_from_container_field_class_by_name
        [NamedFc.mk "a" true (.mk true false .str)] [("a", 0)] "a" =
      some (NamedFc.mk "a" true (.mk true false .str)) :=
  ⟨by decide, rfl,
    (claim5_name_uniqueness.2.1 [NamedFc.mk "a" true (.mk true false .str)]
      [("a", 0)] (NamedFc.mk "b" true (.mk true false .str)) _ _ (by decide)
      rfl).2.2,
    claim5_name_uniqueness.2.2.1 [NamedFc.mk "a" true (.mk true false .str)]
      [("a", 0)] (NamedFc.mk "a" false (.mk false false .str)) 0
      (by decide) (by decide) rfl,
    claim5_name_uniqueness.2.2.2 [NamedFc.mk "a" true (.mk true false .str)]
      [("a", 0)] 0 (by decide) (by decide)⟩

theorem collectLabels_eq_filter (v : Int) : ∀ maps : List EnumMapping,
    collectLabelsForValue maps v =
      (maps.filter
          (fun m => rangeSetContainsValue m.rangeSet.ranges v)).map
        (fun m => m.label)
  | [] => rfl
  | m :: rest => by
    by_cases h : rangeSetContainsValue m.rangeSet.ranges v
    · simp [collectLabelsForValue, h, collectLabels_eq_filter v rest]
    · simp [collectLabelsForValue, h, collectLabels_eq_filter v rest]

/-- C6: both label queries return exactly the labels of the mappings whose
range set contains the value, in mapping insertion order, as a successful
(`OK`) result — an empty result is not an error; on the mapping table
`("a",[0,10]), ("b",[5,15])` the query for 7 yields `["a","b"]` and the
query for 20 yields `[]`. -/
theorem claim6_labels_for_value :
    (∀ (fz part : Bool) (r : Nat) (b : DisplayBase)
        (maps : List EnumMapping) (v : Int),
      bt_field_class_unsigned_enumeration_get_mapping_labels_for_value
          (.mk fz part (.uEnum r b maps)) v =
        .ok ((maps.filter
            (fun m => rangeSetContainsValue m.rangeSet.ranges v)).map
          (fun m => m.label))) ∧
    (∀ (fz part : Bool) (r : Nat) (b : DisplayBase)
        (maps : List EnumMapping) (v : Int),
      bt_field_class_signed_enumeration_get_mapping_labels_for_value
          (.mk fz part (.sEnum r b maps)) v =
        .ok ((maps.filter
            (fun m => rangeSetContainsValue m.rangeSet.ranges v)).map
          (fun m => m.label))) ∧
    bt_field_class_unsigned_enumeration_get_mapping_labels_for_value
        (.mk false false (.uEnum 64 .decimal
          [⟨"a", ⟨[⟨0, 10⟩], true⟩⟩, ⟨"b", ⟨[⟨5, 15⟩], true⟩⟩])) 7 =
      .ok ["a", "b"] ∧
    bt_field_class_unsigned_enumeration_get_mapping_labels_for_value
        (.mk false false (.uEnum 64 .decimal
          [⟨"a", ⟨[⟨0, 10⟩], true⟩⟩, ⟨"b", ⟨[⟨5, 15⟩], true⟩⟩])) 20 =
      .ok [] := by
  refine ⟨?_, ?_, rfl, rfl⟩
  · intro fz part r b maps v
    simp only
      [bt_field_class_unsigned_enumeration_get_mapping_labels_for_value]
    rw [collectLabels_eq_filter]
  · intro fz part r b maps v
    simp only
      [bt_field_class_signed_enumeration_get_mapping_labels_for_value]
    rw [collectLabels_eq_filter]

theorem has_label_eq_any (label : String) : ∀ maps : List EnumMapping,
    enumeration_field_class_has_mapping_with_label maps label =
      maps.any (fun m => m.label == label)
  | [] => rfl
  | m :: rest => by
    by_cases h : m.label = label
    · rw [enumeration_field_class_has_mapping_with_label, if_pos h,
        List.any_cons]
      simp [h]
    · rw [enumeration_field_class_has_mapping_with_label, if_neg h,
        List.any_cons, has_label_eq_any label rest]
      simp [h]

/-- C7: `add_mapping` fails with `DuplicateLabel` exactly when a mapping
with the same label is already present (the scan
`enumeration_field_class_has_mapping_with_label` is exactly a membership
test on the labels); when the label is new it appends the mapping at the
end regardless of the ranges — no overlap check of any kind is performed,
for either signedness. -/
theorem claim7_add_mapping :
    (∀ (label : String) (maps : List EnumMapping),
      enumeration_field_class_has_mapping_with_label maps label =
        maps.any (fun m => m.label == label)) ∧
    (∀ (fz part : Bool) (r : Nat) (b : DisplayBase)
        (maps : List EnumMapping) (label : String) (rs : RangeSet),
      add_mapping_to_enumeration_field_class
          (.mk fz part (.uEnum r b maps)) label rs =
        if maps.any (fun m => m.label == label) then .error .duplicateLabel
        else .ok (.mk fz part (.uEnum r b (maps ++ [⟨label, rs⟩])))) ∧
    (∀ (fz part : Bool) (r : Nat) (b : DisplayBase)
        (maps : List EnumMapping) (label : String) (rs : RangeSet),
      add_mapping_to_enumeration_field_class
          (.mk fz part (.sEnum r b maps)) label rs =
        if maps.any (fun m => m.label == label) then .error .duplicateLabel
        else .ok (.mk fz part (.sEnum r b (maps ++ [⟨label, rs⟩])))) := by
  refine ⟨has_label_eq_any, ?_, ?_⟩
  · intro fz part r b maps label rs
    simp only [add_mapping_to_enumeration_field_class,
      has_label_eq_any label maps]
  · intro fz part r b maps label rs
    simp only [add_mapping_to_enumeration_field_class,
      has_label_eq_any label maps]

/-- C8 counterexample: `bt_field_class_integer_set_field_value_range` only
checks `size <= 64` (field-class.c:153); there is no lower bound check, so
setting the bit width of a fresh unsigned integer field class to 0 succeeds
and stores 0, which is outside the claimed interval `[1,64]`. -/
theorem claim8_counterexample :
    bt_field_class_integer_set_field_value_range
        bt_field_class_unsigned_integer_create 0 =
      .ok (.mk false false (.uInt 0 .decimal)) ∧
    bt_field_class_integer_get_field_value_range
        (.mk false false (.uInt 0 .decimal)) = some 0 :=
  ⟨rfl, rfl⟩

/-- C8 (amended): creation initializes the bit width to 64 for all four
integer-family field classes; `set_field_value_range(bits)` fails (with no
state change) for every `bits > 64`; but every `bits <= 64` — including
`bits = 0` — is accepted on an unfrozen integer-family field class and
stored as the new width (the source has no lower-bound check). -/
theorem claim8_bit_width_range :
    bt_field_class_integer_get_field_value_range
        bt_field_class_unsigned_integer_create = some 64 ∧
    bt_field_class_integer_get_field_value_range
        bt_field_class_signed_integer_create = some 64 ∧
    bt_field_class_integer_get_field_value_range
        bt_field_class_unsigned_enumeration_create = some 64 ∧
    bt_field_class_integer_get_field_value_range
        bt_field_class_signed_enumeration_create = some 64 ∧
    (∀ (fc : FieldClass) (size : Nat), 64 < size →
      ∃ e, bt_field_class_integer_set_field_value_range fc size =
        .error e) ∧
    (∀ (part : Bool) (spec : FcSpec) (size : Nat),
      isIntFamily spec = true → size ≤ 64 →
      bt_field_class_integer_set_field_value_range (.mk false part spec)
        size = .ok (.mk false part (setSpecRange spec size))) := by
  refine ⟨rfl, rfl, rfl, rfl, ?_, ?_⟩
  · intro fc size hsize
    cases fc with
    | mk fz part spec =>
      simp only [bt_field_class_integer_set_field_value_range]
      by_cases hint : isIntFamily spec
      · rw [hint]
        cases fz with
        | true =>
          exact ⟨.invalidState, by rw [if_neg (by simp)]; rfl⟩
        | false =>
          refine ⟨.invalidArgument, ?_⟩
          rw [if_neg (by simp)]
          rw [if_neg (by exact Bool.false_ne_true)]
          rw [if_pos hsize]
      · refine ⟨.invalidKind, ?_⟩
        rw [if_pos (by simp [Bool.eq_false_iff.mpr hint])]
  · intro part spec size hint hsize
    simp only [bt_field_class_integer_set_field_value_range, hint]
    rw [if_neg (by simp)]
    rw [if_neg (by exact Bool.false_ne_true)]
    rw [if_neg (Nat.not_lt.mpr hsize)]

/-- C8 witness: the theorem's parts applied concretely: setting 65 fails,
setting 0 on a fresh unsigned integer succeeds and stores 0. -/
theorem claim8_witness :
    (64 : Nat) < 65 ∧
    (∃ e, bt_field_class_integer_set_field_value_range
      bt_field_class_unsigned_integer_create 65 = .error e) ∧
    bt_field_class_integer_set_field_value_range
        (.mk false false (.uInt 64 .decimal)) 0 =
      .ok (.mk false false (setSpecRange (.uInt 64 .decimal) 0)) :=
  ⟨by decide,
    claim8_bit_width_range.2.2.2.2.1 bt_field_class_unsigned_integer_create
      65 (by decide),
    claim8_bit_width_range.2.2.2.2.2 false (.uInt 64 .decimal) 0 rfl
      (by decide)⟩

/-- C9: creating a variant field class with a selector freezes the stored
selector field class at creation time — the created variant (of either
signedness) carries `bt_field_class_freeze sel`, whose frozen flag is set,
and has no options yet; likewise creating a dynamic array with a length
field class stores `bt_field_class_freeze length_fc`, already frozen. -/
theorem claim9_create_freezes_selector_and_length :
    (∀ (sel : FieldClass) (fc' : FieldClass),
      bt_field_class_variant_create (some sel) = .ok fc' →
      (fc' = .mk false false (.varUSel (bt_field_class_freeze sel) [] []) ∨
       fc' = .mk false false (.varSSel (bt_field_class_freeze sel) [] [])) ∧
      (bt_field_class_freeze sel).frozen = true) ∧
    (∀ (el lfc : FieldClass) (fc' : FieldClass),
      bt_field_class_dynamic_array_create el (some lfc) = .ok fc' →
      fc' = .mk false false
          (.dynArr (bt_field_class_freeze el)
            (some (bt_field_class_freeze lfc))) ∧
      (bt_field_class_freeze lfc).frozen = true) := by
  constructor
  · intro sel fc' h
    have hfz : (bt_field_class_freeze sel).frozen = true := by
      cases sel with
      | mk fz part spec => rfl
    simp only [bt_field_class_variant_create] at h
    by_cases hint : isIntFamily sel.spec
    · rw [if_neg (by simp [hint])] at h
      by_cases huns : isUnsignedIntFamily sel.spec
      · rw [if_pos huns] at h
        exact ⟨Or.inl (Except.ok.inj h).symm, hfz⟩
      · rw [if_neg huns] at h
        exact ⟨Or.inr (Except.ok.inj h).symm, hfz⟩
    · rw [if_pos (by simp [Bool.eq_false_iff.mpr hint])] at h
      exact Except.noConfusion h
  · intro el lfc fc' h
    have hfz : (bt_field_class_freeze lfc).frozen = true := by
      cases lfc with
      | mk fz part spec => rfl
    simp only [bt_field_class_dynamic_array_create] at h
    by_cases huns : isUnsignedIntFamily lfc.spec
    · rw [if_neg (by simp [huns])] at h
      exact ⟨(Except.ok.inj h).symm, hfz⟩
    · rw [if_pos (by simp [Bool.eq_false_iff.mpr huns])] at h
      exact Except.noConfusion h

/-- C9 witness: the theorem applied to a variant created over a fresh
unsigned integer selector and a dynamic array created over a fresh unsigned
integer length field class. -/
theorem claim9_witness :
    ((FieldClass.mk false false (.varUSel (bt_field_class_freeze bt_field_class_unsigned_integer_create) [] []) = FieldClass.mk false false (.varUSel (bt_field_class_freeze bt_field_class_unsigned_integer_create) [] []) ∨
      FieldClass.mk false false (.varUSel (bt_field_class_freeze bt_field_class_unsigned_integer_create) [] []) = FieldClass.mk false false (.varSSel (bt_field_class_freeze bt_field_class_unsigned_integer_create) [] [])) ∧
      (bt_field_class_freeze bt_field_class_unsigned_integer_create).frozen = true) ∧
    (bt_field_class_freeze bt_field_class_unsigned_integer_create).frozen = true :=
  ⟨claim9_create_freezes_selector_and_length.1
      bt_field_class_unsigned_integer_create _ rfl,
    (claim9_create_freezes_selector_and_length.2 (.mk false false .str)
      bt_field_class_unsigned_integer_create _ rfl).2⟩

theorem appendOptionToContainer_no_overlap_error (cf : Bool)
    (opts : List VarOption) (idx : List (String × Nat)) (opt : VarOption)
    (h : appendOptionToContainer cf opts idx opt = .error .overlappingRanges) :
    False := by
  unfold appendOptionToContainer at h
  by_cases hcf : cf = true
  · rw [if_pos hcf] at h
    exact Err.noConfusion (Except.error.inj h)
  · rw [if_neg hcf] at h
    by_cases hdup : (lookupName idx opt.name).isSome
    · rw [if_pos hdup] at h
      exact Err.noConfusion (Except.error.inj h)
    · rw [if_neg hdup] at h
      exact Except.noConfusion h

theorem appendOptionCore_overlap_iff (cf : Bool) (opts : List VarOption)
    (idx : List (String × Nat)) (name : String) (ofc : FieldClass)
    (rs : RangeSet)
    (hwf : wfRanges (optionRangeList opts ++ rs.ranges) = true)
    (hne : rs.ranges.isEmpty = false) :
    appendOptionCore cf opts idx name ofc rs = .error .overlappingRanges ↔
      pairwiseOverlap (optionRangeList opts ++ rs.ranges) = true := by
  unfold appendOptionCore
  rw [if_neg (by rw [hne]; exact Bool.false_ne_true)]
  rw [ranges_overlap_ok opts rs hwf]
  cases hp : pairwiseOverlap (optionRangeList opts ++ rs.ranges) with
  | true => simp
  | false =>
    show appendOptionToContainer cf opts idx _ = .error .overlappingRanges ↔
      false = true
    constructor
    · intro h
      exact absurd h (fun h => appendOptionToContainer_no_overlap_error
        cf opts idx _ h)
    · intro h
      exact absurd h Bool.false_ne_true

theorem api_u_append_error_iff (fz part : Bool) (sel : FieldClass)
    (opts : List VarOption) (idx : List (String × Nat)) (name : String)
    (ofc : FieldClass) (rs : RangeSet) (e : Err) :
    bt_field_class_variant_with_unsigned_selector_append_option
        (.mk fz part (.varUSel sel opts idx)) name ofc rs = .error e ↔
      appendOptionCore fz opts idx name ofc rs = .error e := by
  simp only [bt_field_class_variant_with_unsigned_selector_append_option]
  cases hc : appendOptionCore fz opts idx name ofc rs with
  | error e' => simp
  | ok p =>
    cases p with
    | mk a b => simp

theorem api_s_append_error_iff (fz part : Bool) (sel : FieldClass)
    (opts : List VarOption) (idx : List (String × Nat)) (name : String)
    (ofc : FieldClass) (rs : RangeSet) (e : Err) :
    bt_field_class_variant_with_signed_selector_append_option
        (.mk fz part (.varSSel sel opts idx)) name ofc rs = .error e ↔
      appendOptionCore fz opts idx name ofc rs = .error e := by
  simp only [bt_field_class_variant_with_signed_selector_append_option]
  cases hc : appendOptionCore fz opts idx name ofc rs with
  | error e' => simp
  | ok p =>
    cases p with
    | mk a b => simp

/-- C3: `append_option` on a selector variant (either signedness) fails
with `OverlappingRanges` exactly when the union of the ranges of all
existing options plus the new range set contains two ranges with a
non-empty intersection, with inclusive bounds (the `pairwiseOverlap`
predicate); and when that union has no overlap, the container is not
frozen and the name is fresh, the append succeeds, inserting the option at
the end.  Hypotheses: all ranges well formed (`lower <= upper`, the shape
`add_range` guarantees) and the new range set non-empty, as required before
the overlap check is reached. -/
theorem claim3_selector_partition :
    (∀ (fz part : Bool) (sel : FieldClass) (opts : List VarOption)
        (idx : List (String × Nat)) (name : String) (ofc : FieldClass)
        (rs : RangeSet),
      wfRanges (optionRangeList opts ++ rs.ranges) = true →
      rs.ranges.isEmpty = false →
      (bt_field_class_variant_with_unsigned_selector_append_option
          (.mk fz part (.varUSel sel opts idx)) name ofc rs =
            .error .overlappingRanges ↔
        pairwiseOverlap (optionRangeList opts ++ rs.ranges) = true)) ∧
    (∀ (fz part : Bool) (sel : FieldClass) (opts : List VarOption)
        (idx : List (String × Nat)) (name : String) (ofc : FieldClass)
        (rs : RangeSet),
      wfRanges (optionRangeList opts ++ rs.ranges) = true →
      rs.ranges.isEmpty = false →
      (bt_field_class_variant_with_signed_selector_append_option
          (.mk fz part (.varSSel sel opts idx)) name ofc rs =
            .error .overlappingRanges ↔
        pairwiseOverlap (optionRangeList opts ++ rs.ranges) = true)) ∧
    (∀ (part : Bool) (sel : FieldClass) (opts : List VarOption)
        (idx : List (String × Nat)) (name : String) (ofc : FieldClass)
        (rs : RangeSet),
      wfRanges (optionRangeList opts ++ rs.ranges) = true →
      rs.ranges.isEmpty = false →
      lookupName idx name = none →
      pairwiseOverlap (optionRangeList opts ++ rs.ranges) = false →
      bt_field_class_variant_with_unsigned_selector_append_option
          (.mk false part (.varUSel sel opts idx)) name ofc rs =
        .ok (.mk false part (.varUSel sel
          (opts ++ [create_variant_with_selector_option name ofc rs])
          ((name, opts.length) :: idx)))) := by
  refine ⟨?_, ?_, ?_⟩
  · intro fz part sel opts idx name ofc rs hwf hne
    rw [api_u_append_error_iff]
    exact appendOptionCore_overlap_iff fz opts idx name ofc rs hwf hne
  · intro fz part sel opts idx name ofc rs hwf hne
    rw [api_s_append_error_iff]
    exact appendOptionCore_overlap_iff fz opts idx name ofc rs hwf hne
  · intro part sel opts idx name ofc rs hwf hne hfresh hnov
    have hcore : appendOptionCore false opts idx name ofc rs =
        .ok (opts ++ [create_variant_with_selector_option name ofc rs],
          (name, opts.length) :: idx) := by
      unfold appendOptionCore
      rw [if_neg (by rw [hne]; exact Bool.false_ne_true)]
      rw [ranges_overlap_ok opts rs hwf, hnov]
      show appendOptionToContainer false opts idx _ = _
      unfold appendOptionToContainer
      rw [if_neg (by exact Bool.false_ne_true)]
      have hn : (create_variant_with_selector_option name ofc rs).name =
          name := rfl
      rw [hn, hfresh]
      rfl
    simp only [bt_field_class_variant_with_unsigned_selector_append_option,
      hcore]

/-- C3 witness: with an existing option carrying ranges `[0,10]`, appending
`[10,20]` hits the boundary-inclusive overlap at 10 (the equivalence's
right side is true, so the call fails with `OverlappingRanges`), while
appending `[11,20]` with a fresh name succeeds. -/
theorem claim3_witness :
    wfRanges (optionRangeList
      [VarOption.mk "A" true (.mk true false .str) ⟨[⟨0, 10⟩], true⟩] ++
      [IntRange.mk 10 20]) = true ∧
    ([IntRange.mk 10 20] : List IntRange).isEmpty = false ∧
    (bt_field_class_variant_with_unsigned_selector_append_option
        (.mk false false (.varUSel (.mk true false (.uInt 64 .decimal))
          [VarOption.mk "A" true (.mk true false .str) ⟨[⟨0, 10⟩], true⟩]
          [("A", 0)])) "B" (.mk false false .str) ⟨[⟨10, 20⟩], false⟩ =
          .error .overlappingRanges ↔
      pairwiseOverlap (optionRangeList
        [VarOption.mk "A" true (.mk true false .str) ⟨[⟨0, 10⟩], true⟩] ++
        [IntRange.mk 10 20]) = true) ∧
    bt_field_class_variant_with_unsigned_selector_append_option
        (.mk false false (.varUSel (.mk true false (.uInt 64 .decimal))
          [VarOption.mk "A" true (.mk true false .str) ⟨[⟨0, 10⟩], true⟩]
          [("A", 0)])) "B" (.mk false false .str) ⟨[⟨11, 20⟩], false⟩ =
      .ok (.mk false false (.varUSel (.mk true false (.uInt 64 .decimal))
        ([VarOption.mk "A" true (.mk true false .str) ⟨[⟨0, 10⟩], true⟩] ++
          [create_variant_with_selector_option "B" (.mk false false .str)
            ⟨[⟨11, 20⟩], false⟩])
        (("B", 1) :: [("A", 0)]))) :=
  ⟨by decide, by decide,
    claim3_selector_partition.1 false false
      (.mk true false (.uInt 64 .decimal))
      [VarOption.mk "A" true (.mk true false .str) ⟨[⟨0, 10⟩], true⟩]
      [("A", 0)] "B" (.mk false false .str) ⟨[⟨10, 20⟩], false⟩
      (by decide) (by decide),
    claim3_selector_partition.2.2 false
      (.mk true false (.uInt 64 .decimal))
      [VarOption.mk "A" true (.mk true false .str) ⟨[⟨0, 10⟩], true⟩]
      [("A", 0)] "B" (.mk false false .str) ⟨[⟨11, 20⟩], false⟩
      (by decide) (by decide) (by decide) (by decide)⟩
